import Mathlib

/-!
Verification development for a credit-card statement parser.

The development shallowly embeds the parsing pipeline of the repository:
character-level string utilities, a backtracking regular-expression
matcher with capture groups (modelling Python's `re.search` /
`re.finditer` on the concrete patterns used by the code), the value
normalizers (`normalize_currency`, `normalize_date`), the card-suffix
locator (`extract_card_last4`), the confidence scorer
(`calculate_confidence`), the five issuer parsers, the dispatcher
(`parse_pdf`) and issuer detection (`detect_issuer`).

Machine strings are modelled as `List Char`; Python floats are modelled
exactly as rationals (plus infinity/nan markers); a raised Python
exception is modelled by the `Except` monad.  Text acquisition
(pdfplumber / OCR) is I/O and is modelled as an oracle: parsers take
the outcome of acquisition (text or an exception) as input.
-/

set_option maxRecDepth 10000

/-! ## Character helpers (ASCII model of Python's str semantics) -/

/-- Digit character, Python regex `\d` (ASCII model). -/
def isDigitC (c : Char) : Bool := '0' ≤ c && c ≤ '9'

/-- Whitespace, Python regex `\s` and `str.strip` (ASCII model):
space, tab, newline, carriage return, form feed, vertical tab. -/
def isSpaceC (c : Char) : Bool :=
  c = ' ' || c = '\t' || c = '\n' || c = '\r' || c = '\x0b' || c = '\x0c'

/-- Word character, Python regex `\w` (ASCII model). -/
def isWordC (c : Char) : Bool :=
  ('a' ≤ c && c ≤ 'z') || ('A' ≤ c && c ≤ 'Z') || isDigitC c || c = '_'

/-- Lower-casing of one character, Python `str.lower` (ASCII model). -/
def lowerc (c : Char) : Char :=
  if 'A' ≤ c && c ≤ 'Z' then Char.ofNat (c.toNat + 32) else c

/-- Lower-casing of a string. -/
def lowerL (s : List Char) : List Char := s.map lowerc

/-- Character comparison, optionally case-insensitive (re.IGNORECASE). -/
def cmpc (ci : Bool) (a b : Char) : Bool :=
  if ci then lowerc a = lowerc b else a = b

/-- The characters of a string literal. -/
def sl (s : String) : List Char := s.data

/-- Python `str.strip()`: drop whitespace at both ends. -/
def pyStrip (s : List Char) : List Char :=
  ((s.dropWhile isSpaceC).reverse.dropWhile isSpaceC).reverse

/-- Python substring test `needle in hay`. -/
def strContains (hay needle : List Char) : Bool :=
  match hay with
  | [] => needle.isEmpty
  | _ :: t => needle.isPrefixOf hay || strContains t needle

/-- Numeric value of a digit character. -/
def digitVal (c : Char) : Nat := c.toNat - '0'.toNat

/-- Value of a string of decimal digits (most significant first). -/
def digitsToNat (s : List Char) : Nat :=
  s.foldl (fun acc c => acc * 10 + digitVal c) 0

/-! ## Regular expressions

An abstract syntax for the exact patterns appearing in the source, and a
backtracking matcher producing the full list of alternatives in Python's
backtracking priority order (so the head of the list is the match Python
would commit to).  All quantifiers in the source patterns range over
single-character classes, which keeps the matcher structurally
recursive. -/

/-- One item of a character class. -/
inductive CItem where
  | ch (c : Char)
  | digit
  | space
  | word
deriving DecidableEq, Repr

/-- A character class: `neg` true for a negated class (used for `.`). -/
structure CClass where
  neg : Bool
  items : List CItem
deriving DecidableEq, Repr

/-- Does a class item match a character (under optional IGNORECASE)? -/
def itemMatch (ci : Bool) (c : Char) : CItem → Bool
  | .ch d => cmpc ci d c
  | .digit => isDigitC c
  | .space => isSpaceC c
  | .word => isWordC c

/-- Does a class match a character? -/
def ccMatch (ci : Bool) (cc : CClass) (c : Char) : Bool :=
  (cc.items.any (itemMatch ci c)) != cc.neg

/-- Regular expressions.  `reps lo hi lazy cc` covers `*`, `+`, `?` on
classes and counted repetitions `{n}`, `{lo,hi}`; `opt` is `(?:...)?`;
`nla` is negative lookahead `(?!...)`; `wb` is `\b`. -/
inductive RE where
  | eps
  | lit (c : Char)
  | cls (cc : CClass)
  | cat (a b : RE)
  | alt (a b : RE)
  | opt (a : RE)
  | reps (lo : Nat) (hi : Option Nat) (lzy : Bool) (cc : CClass)
  | group (idx : Nat) (a : RE)
  | nla (a : RE)
  | wb
deriving DecidableEq, Repr

/-- A literal word as a regex (each character matched literally). -/
def strRE (w : List Char) : RE := w.foldr (fun c r => .cat (.lit c) r) .eps

/-- Captures: group index paired with the captured characters. -/
abbrev Caps := List (Nat × List Char)

/-- One alternative produced by the matcher: the character preceding the
rest of the input (for `\b`), the unconsumed suffix, and the captures. -/
structure MState where
  prevA : Option Char
  rest : List Char
  caps : Caps
deriving DecidableEq, Repr

/-- Length of the longest prefix of `cs` whose characters all match `cc`. -/
def countRun (ci : Bool) (cc : CClass) : List Char → Nat
  | [] => 0
  | c :: t => if ccMatch ci cc c then countRun ci cc t + 1 else 0

/-- Word/non-word boundary test for `\b`. -/
def atBoundary (prev : Option Char) (cs : List Char) : Bool :=
  (match prev with | none => false | some c => isWordC c)
    != (match cs with | [] => false | c :: _ => isWordC c)

/-- The previous-character context after consuming `k` characters of `cs`. -/
def prevAfter (prev : Option Char) (cs : List Char) (k : Nat) : Option Char :=
  match (cs.take k).getLast? with
  | some c => some c
  | none => prev

/-- All ways to match `re` against a prefix of `cs`, in Python's
backtracking priority order (head = preferred).  `prev` is the character
just before `cs` in the overall subject (for `\b`). -/
def mrun (ci : Bool) : RE → Option Char → List Char → List MState
  | .eps, prev, cs => [⟨prev, cs, []⟩]
  | .lit c, prev, cs =>
    match cs with
    | [] => []
    | d :: t => if cmpc ci c d then [⟨some d, t, []⟩] else []
  | .cls cc, prev, cs =>
    match cs with
    | [] => []
    | d :: t => if ccMatch ci cc d then [⟨some d, t, []⟩] else []
  | .cat a b, prev, cs =>
    (mrun ci a prev cs).flatMap fun r1 =>
      (mrun ci b r1.prevA r1.rest).map fun r2 => ⟨r2.prevA, r2.rest, r2.caps ++ r1.caps⟩
  | .alt a b, prev, cs => mrun ci a prev cs ++ mrun ci b prev cs
  | .opt a, prev, cs => mrun ci a prev cs ++ [⟨prev, cs, []⟩]
  | .reps lo hi lzy cc, prev, cs =>
    let run := countRun ci cc cs
    let mx := match hi with | none => run | some h => min run h
    if lo ≤ mx then
      let ks := (List.range (mx + 1 - lo)).map (lo + ·)
      let ks := if lzy then ks else ks.reverse
      ks.map fun k => ⟨prevAfter prev cs k, cs.drop k, []⟩
    else []
  | .group i a, prev, cs =>
    (mrun ci a prev cs).map fun r =>
      ⟨r.prevA, r.rest, (i, cs.take (cs.length - r.rest.length)) :: r.caps⟩
  | .nla a, prev, cs => if (mrun ci a prev cs).isEmpty then [⟨prev, cs, []⟩] else []
  | .wb, prev, cs => if atBoundary prev cs then [⟨prev, cs, []⟩] else []

/-- Result of a successful `re.search`: absolute start and end offsets of
the match, captures, and the context after the match (previous character
and unconsumed suffix), for resuming `finditer`. -/
structure SRes where
  ms : Nat
  me : Nat
  caps : Caps
  prevA : Option Char
  rest : List Char
deriving DecidableEq, Repr

/-- Attempt a match anchored at the current position (absolute offset
`i`, previous character `prev`). -/
def searchHere (ci : Bool) (re : RE) (prev : Option Char) (i : Nat) (cs : List Char) :
    Option SRes :=
  match mrun ci re prev cs with
  | r :: _ => some ⟨i, i + (cs.length - r.rest.length), r.caps, r.prevA, r.rest⟩
  | [] => none

/-- Scan for the leftmost match, Python `re.search`.  `i` is the absolute
offset of `cs` in the subject, `prev` the character before it. -/
def searchAux (ci : Bool) (re : RE) : Option Char → Nat → List Char → Option SRes
  | prev, i, [] => searchHere ci re prev i []
  | prev, i, c :: t =>
    match searchHere ci re prev i (c :: t) with
    | some r => some r
    | none => searchAux ci re (some c) (i + 1) t

/-- Python `re.search` over a whole subject. -/
def reSearch (ci : Bool) (re : RE) (t : List Char) : Option SRes :=
  searchAux ci re none 0 t

/-- Lookup of a capture group (Python `match.group(g)`; the head of the
list is the most recent capture of the group). -/
def capLookup (g : Nat) : Caps → Option (List Char)
  | [] => none
  | (i, s) :: t => if i = g then some s else capLookup g t

/-- The string captured by group `g` of the leftmost match, if any
(Python `re.search(...)` followed by `.group(g)`; in all patterns of the
source the group always participates in a successful match). -/
def searchCap (g : Nat) (ci : Bool) (re : RE) (t : List Char) : Option (List Char) :=
  match reSearch ci re t with
  | some r => capLookup g r.caps
  | none => none

/-- Python `re.finditer`: all non-overlapping matches, left to right.
`fuel` bounds the iteration (length of the subject suffices since every
emitted match advances the scan position). -/
def findIterAux (ci : Bool) (re : RE) :
    Nat → Option Char → Nat → List Char → List (Nat × Nat × Caps)
  | 0, _, _, _ => []
  | fuel + 1, prev, i, cs =>
    match searchAux ci re prev i cs with
    | none => []
    | some r =>
      if r.me ≤ r.ms then
        match r.rest with
        | [] => [(r.ms, r.me, r.caps)]
        | c :: t => (r.ms, r.me, r.caps) :: findIterAux ci re fuel (some c) (r.me + 1) t
      else (r.ms, r.me, r.caps) :: findIterAux ci re fuel r.prevA r.me r.rest

/-- Python `re.finditer` over a whole subject. -/
def findIter (ci : Bool) (re : RE) (t : List Char) : List (Nat × Nat × Caps) :=
  findIterAux ci re (t.length + 1) none 0 t

/-! ## Declarative semantics and soundness of the matcher

`MB ci re u` says that `u` is one of the strings the pattern `re` can
consume (context conditions `\b`, `(?!...)` are weakened to "consumes
nothing", which is all soundness needs).  The soundness theorem below
shows every capture recorded by `mrun` for group `i` is a string matched
by the body of group `i`; claims about the shape of captured fields
(card suffixes are 4 digits, money strings contain no sign) follow. -/

/-- Upper-bound side condition of a counted repetition. -/
def hiOK : Option Nat → Nat → Prop
  | none, _ => True
  | some h, n => n ≤ h

/-- Declarative matching relation. -/
inductive MB (ci : Bool) : RE → List Char → Prop where
  | eps : MB ci .eps []
  | lit {c d} : cmpc ci c d = true → MB ci (.lit c) [d]
  | cls {cc d} : ccMatch ci cc d = true → MB ci (.cls cc) [d]
  | cat {a b s t} : MB ci a s → MB ci b t → MB ci (.cat a b) (s ++ t)
  | altL {a b s} : MB ci a s → MB ci (.alt a b) s
  | altR {a b s} : MB ci b s → MB ci (.alt a b) s
  | optS {a s} : MB ci a s → MB ci (.opt a) s
  | optN {a} : MB ci (.opt a) []
  | reps {lo hi lzy cc s} : lo ≤ s.length → hiOK hi s.length →
      (∀ c ∈ s, ccMatch ci cc c = true) → MB ci (.reps lo hi lzy cc) s
  | group {i a s} : MB ci a s → MB ci (.group i a) s
  | nla {a} : MB ci (.nla a) []
  | wb : MB ci .wb []

/-- All capture groups of a regex, with their bodies. -/
def groupsOf : RE → List (Nat × RE)
  | .cat a b => groupsOf a ++ groupsOf b
  | .alt a b => groupsOf a ++ groupsOf b
  | .opt a => groupsOf a
  | .group i a => (i, a) :: groupsOf a
  | .nla a => groupsOf a
  | _ => []

/-- Every recorded capture is a string matched by its group's body. -/
def capsOK (ci : Bool) (re : RE) (ks : Caps) : Prop :=
  ∀ p ∈ ks, ∃ b, (p.1, b) ∈ groupsOf re ∧ MB ci b p.2

theorem countRun_le (ci : Bool) (cc : CClass) (cs : List Char) :
    countRun ci cc cs ≤ cs.length := by
  induction cs with
  | nil => simp [countRun]
  | cons c t ih =>
    unfold countRun
    split
    · simpa using ih
    · simp

theorem take_all_match (ci : Bool) (cc : CClass) (cs : List Char) :
    ∀ k, k ≤ countRun ci cc cs → ∀ c ∈ cs.take k, ccMatch ci cc c = true := by
  induction cs with
  | nil => intro k hk c hc; simp at hc
  | cons d t ih =>
    intro k hk c hc
    unfold countRun at hk
    by_cases hd : ccMatch ci cc d
    · rw [if_pos hd] at hk
      cases k with
      | zero => simp at hc
      | succ k' =>
        rw [List.take_succ_cons] at hc
        rcases List.mem_cons.mp hc with h | h
        · subst h; exact hd
        · exact ih k' (by omega) c h
    · rw [if_neg hd] at hk
      have : k = 0 := by omega
      subst this
      simp at hc

theorem reps_mem_bounds {lzy : Bool} {lo mx : Nat} {f : Nat → MState} {r : MState}
    (hr : r ∈ (if lzy then (List.range (mx + 1 - lo)).map (lo + ·)
               else ((List.range (mx + 1 - lo)).map (lo + ·)).reverse).map f)
    (hle : lo ≤ mx) :
    ∃ k, lo ≤ k ∧ k ≤ mx ∧ r = f k := by
  have hr' : r ∈ ((List.range (mx + 1 - lo)).map (lo + ·)).map f := by
    rcases lzy with _ | _
    · simp only [Bool.false_eq_true, if_false, List.map_reverse, List.mem_reverse] at hr
      exact hr
    · simpa using hr
  simp only [List.mem_map, List.mem_range] at hr'
  obtain ⟨k, ⟨j, hj, hkj⟩, hreq⟩ := hr'
  exact ⟨k, by omega, by omega, hreq.symm⟩

/-- Soundness of the operational matcher with respect to `MB`:
every alternative consumes a prefix matched by the regex, and every
capture it records is matched by the corresponding group body. -/
theorem mrun_sound (ci : Bool) (re : RE) :
    ∀ (prev : Option Char) (cs : List Char), ∀ r ∈ mrun ci re prev cs,
      (∃ u, cs = u ++ r.rest ∧ MB ci re u) ∧ capsOK ci re r.caps := by
  induction re with
  | eps =>
    intro prev cs r hr
    simp only [mrun, List.mem_singleton] at hr
    subst hr
    exact ⟨⟨[], rfl, MB.eps⟩, by intro p hp; simp at hp⟩
  | lit c =>
    intro prev cs r hr
    cases cs with
    | nil => simp [mrun] at hr
    | cons d t =>
      by_cases h : cmpc ci c d
      · simp only [mrun, h, if_pos, List.mem_singleton] at hr
        subst hr
        exact ⟨⟨[d], rfl, MB.lit h⟩, by intro p hp; simp at hp⟩
      · simp [mrun, h] at hr
  | cls cc =>
    intro prev cs r hr
    cases cs with
    | nil => simp [mrun] at hr
    | cons d t =>
      by_cases h : ccMatch ci cc d
      · simp only [mrun, h, if_pos, List.mem_singleton] at hr
        subst hr
        exact ⟨⟨[d], rfl, MB.cls h⟩, by intro p hp; simp at hp⟩
      · simp [mrun, h] at hr
  | cat a b iha ihb =>
    intro prev cs r hr
    simp only [mrun, List.mem_flatMap, List.mem_map] at hr
    obtain ⟨r1, hr1, r2, hr2, hreq⟩ := hr
    subst hreq
    obtain ⟨⟨u1, hcs, hu1⟩, hk1⟩ := iha prev cs r1 hr1
    obtain ⟨⟨u2, hrest, hu2⟩, hk2⟩ := ihb r1.prevA r1.rest r2 hr2
    constructor
    · exact ⟨u1 ++ u2, by rw [hcs, hrest, List.append_assoc], MB.cat hu1 hu2⟩
    · intro p hp
      rcases List.mem_append.mp hp with hp | hp
      · obtain ⟨b', hb', hmb⟩ := hk2 p hp
        exact ⟨b', List.mem_append.mpr (Or.inr hb'), hmb⟩
      · obtain ⟨b', hb', hmb⟩ := hk1 p hp
        exact ⟨b', List.mem_append.mpr (Or.inl hb'), hmb⟩
  | alt a b iha ihb =>
    intro prev cs r hr
    rcases List.mem_append.mp (by simpa only [mrun] using hr) with hr' | hr'
    · obtain ⟨⟨u, hcs, hu⟩, hk⟩ := iha prev cs r hr'
      refine ⟨⟨u, hcs, MB.altL hu⟩, ?_⟩
      intro p hp
      obtain ⟨b', hb', hmb⟩ := hk p hp
      exact ⟨b', List.mem_append.mpr (Or.inl hb'), hmb⟩
    · obtain ⟨⟨u, hcs, hu⟩, hk⟩ := ihb prev cs r hr'
      refine ⟨⟨u, hcs, MB.altR hu⟩, ?_⟩
      intro p hp
      obtain ⟨b', hb', hmb⟩ := hk p hp
      exact ⟨b', List.mem_append.mpr (Or.inr hb'), hmb⟩
  | opt a iha =>
    intro prev cs r hr
    rcases List.mem_append.mp (by simpa only [mrun] using hr) with hr' | hr'
    · obtain ⟨⟨u, hcs, hu⟩, hk⟩ := iha prev cs r hr'
      exact ⟨⟨u, hcs, MB.optS hu⟩, hk⟩
    · rw [List.mem_singleton] at hr'
      subst hr'
      exact ⟨⟨[], rfl, MB.optN⟩, by intro p hp; simp at hp⟩
  | reps lo hi lzy cc =>
    intro prev cs r hr
    simp only [mrun] at hr
    split at hr
    case isTrue hle =>
      obtain ⟨k, hlo, hmx, hreq⟩ := reps_mem_bounds hr hle
      subst hreq
      have hrun : k ≤ countRun ci cc cs := by
        rcases hi with _ | h
        · exact hmx
        · have : k ≤ min (countRun ci cc cs) h := hmx
          omega
      have hlen : (cs.take k).length = k := by
        rw [List.length_take]
        have := countRun_le ci cc cs
        omega
      refine ⟨⟨cs.take k, (List.take_append_drop k cs).symm, ?_⟩,
        by intro p hp; simp at hp⟩
      refine MB.reps ?_ ?_ (take_all_match ci cc cs k hrun)
      · rw [hlen]; omega
      · rcases hi with _ | h
        · exact trivial
        · show (cs.take k).length ≤ h
          rw [hlen]
          have : k ≤ min (countRun ci cc cs) h := hmx
          omega
    case isFalse hle => simp at hr
  | group i a iha =>
    intro prev cs r hr
    simp only [mrun, List.mem_map] at hr
    obtain ⟨r1, hr1, hreq⟩ := hr
    subst hreq
    obtain ⟨⟨u, hcs, hu⟩, hk⟩ := iha prev cs r1 hr1
    have hlen : cs.length - r1.rest.length = u.length := by
      rw [hcs, List.length_append]; omega
    have hcap : cs.take (cs.length - r1.rest.length) = u := by
      rw [hlen, hcs, List.take_left]
    constructor
    · exact ⟨u, hcs, MB.group hu⟩
    · intro p hp
      rcases List.mem_cons.mp hp with hp | hp
      · subst hp
        refine ⟨a, List.mem_cons_self _ _, ?_⟩
        show MB ci a (cs.take (cs.length - r1.rest.length))
        rw [hcap]; exact hu
      · obtain ⟨b', hb', hmb⟩ := hk p hp
        exact ⟨b', List.mem_cons_of_mem _ hb', hmb⟩
  | nla a iha =>
    intro prev cs r hr
    simp only [mrun] at hr
    split at hr
    · rw [List.mem_singleton] at hr
      subst hr
      exact ⟨⟨[], rfl, MB.nla⟩, by intro p hp; simp at hp⟩
    · simp at hr
  | wb =>
    intro prev cs r hr
    simp only [mrun] at hr
    split at hr
    · rw [List.mem_singleton] at hr
      subst hr
      exact ⟨⟨[], rfl, MB.wb⟩, by intro p hp; simp at hp⟩
    · simp at hr

theorem searchHere_caps (ci : Bool) (re : RE) (prev : Option Char) (i : Nat) (cs : List Char)
    (res : SRes) (h : searchHere ci re prev i cs = some res) : capsOK ci re res.caps := by
  unfold searchHere at h
  split at h
  · rename_i r rs hm
    rw [Option.some.injEq] at h
    subst h
    exact (mrun_sound ci re prev cs r (by rw [hm]; exact List.mem_cons_self _ _)).2
  · simp at h

theorem searchAux_caps (ci : Bool) (re : RE) :
    ∀ (cs : List Char) (prev : Option Char) (i : Nat) (res : SRes),
      searchAux ci re prev i cs = some res → capsOK ci re res.caps := by
  intro cs
  induction cs with
  | nil =>
    intro prev i res h
    rw [searchAux] at h
    exact searchHere_caps ci re prev i [] res h
  | cons c t ih =>
    intro prev i res h
    rw [searchAux] at h
    split at h
    · rename_i r hs
      rw [Option.some.injEq] at h
      subst h
      exact searchHere_caps ci re prev i (c :: t) r hs
    · exact ih (some c) (i + 1) res h

theorem findIterAux_caps (ci : Bool) (re : RE) :
    ∀ (fuel : Nat) (prev : Option Char) (i : Nat) (cs : List Char),
      ∀ trip ∈ findIterAux ci re fuel prev i cs, capsOK ci re trip.2.2 := by
  intro fuel
  induction fuel with
  | zero => intro prev i cs trip h; simp [findIterAux] at h
  | succ n ih =>
    intro prev i cs trip h
    unfold findIterAux at h
    split at h
    · simp at h
    · rename_i r hs
      have hcaps := searchAux_caps ci re cs prev i r hs
      split at h
      · split at h
        · rw [List.mem_singleton] at h
          subst h
          exact hcaps
        · rename_i c t _
          rcases List.mem_cons.mp h with h' | h'
          · subst h'; exact hcaps
          · exact ih (some c) (r.me + 1) t trip h'
      · rcases List.mem_cons.mp h with h' | h'
        · subst h'; exact hcaps
        · exact ih r.prevA r.me r.rest trip h'

theorem capLookup_mem {g : Nat} {ks : Caps} {s : List Char} :
    capLookup g ks = some s → (g, s) ∈ ks := by
  induction ks with
  | nil => intro h; simp [capLookup] at h
  | cons p t ih =>
    obtain ⟨i, v⟩ := p
    intro h
    unfold capLookup at h
    split at h
    · rw [Option.some.injEq] at h
      subst h
      rename_i hig
      subst hig
      exact List.mem_cons_self _ _
    · exact List.mem_cons_of_mem _ (ih h)

/-! ## Python numbers

Python `float` results are modelled exactly: a finite value is a
rational, and the special values are kept as markers.  `int(...)` and
`float(...)` on strings are modelled including sign, decimal point,
exponent and the underscore digit-group separators of Python 3.6+. -/

/-- A Python float: finite (exact rational model), infinities or nan. -/
inductive PyNum where
  | fin (q : ℚ)
  | pinf
  | ninf
  | nan
deriving DecidableEq, Repr

/-- Negation of a Python float. -/
def pyNegNum : PyNum → PyNum
  | .fin q => .fin (-q)
  | .pinf => .ninf
  | .ninf => .pinf
  | .nan => .nan

/-- Digit or underscore (the characters a Python digit group may hold). -/
def isDigitU (c : Char) : Bool := isDigitC c || c = '_'

/-- Value of the remaining characters of a digit group: underscores must
be followed by a digit and may not be doubled or trailing. -/
def digitsUAux (acc : Nat) : List Char → Option Nat
  | [] => some acc
  | c :: r =>
    if isDigitC c then digitsUAux (acc * 10 + digitVal c) r
    else if c = '_' then
      match r with
      | d :: r2 => if isDigitC d then digitsUAux (acc * 10 + digitVal d) r2 else none
      | [] => none
    else none

/-- Value of a Python digit group: nonempty, starts with a digit,
underscores only between digits. -/
def digitsU : List Char → Option Nat
  | [] => none
  | c :: r => if isDigitC c then digitsUAux (digitVal c) r else none

/-- Number of digit characters in a group (underscores do not count). -/
def countDigits (s : List Char) : Nat := (s.filter isDigitC).length

/-- Python `int(str)`: strip whitespace, optional sign, digit group. -/
def pyInt (s : List Char) : Option Int :=
  match pyStrip s with
  | '+' :: r => (digitsU r).map (fun n => (n : Int))
  | '-' :: r => (digitsU r).map (fun n => -(n : Int))
  | r => (digitsU r).map (fun n => (n : Int))

/-- Value of a mantissa from integer and fraction digit groups. -/
def mantVal (ni nf k : Nat) : ℚ := (ni : ℚ) + (nf : ℚ) / (10 : ℚ) ^ k

/-- Value of a mantissa given its integer-part and fraction-part digit
groups: at least one group must be nonempty and each nonempty group must
be a valid digit group. -/
def mantissaOf (ip fp : List Char) : Option ℚ :=
  match ip, fp with
  | [], [] => none
  | [], _ :: _ => (digitsU fp).map fun nf => mantVal 0 nf (countDigits fp)
  | _ :: _, [] => (digitsU ip).map fun ni => mantVal ni 0 0
  | _ :: _, _ :: _ =>
    match digitsU ip, digitsU fp with
    | some ni, some nf => some (mantVal ni nf (countDigits fp))
    | _, _ => none

/-- Parse the unsigned mantissa of a Python float literal; returns its
value and the unconsumed remainder (a possible exponent part). -/
def parseMantissa (s : List Char) : Option (ℚ × List Char) :=
  let ip := s.takeWhile isDigitU
  let r1 := s.dropWhile isDigitU
  match r1 with
  | '.' :: r2 => (mantissaOf ip (r2.takeWhile isDigitU)).map
      (fun q => (q, r2.dropWhile isDigitU))
  | _ => (mantissaOf ip []).map (fun q => (q, r1))

/-- Parse an optional exponent part and apply it to the mantissa; the
whole remainder must be consumed. -/
def parseExp (q : ℚ) (s : List Char) : Option ℚ :=
  match s with
  | [] => some q
  | c :: r =>
    if c = 'e' ∨ c = 'E' then
      match r with
      | '+' :: r2 => (digitsU r2).map (fun n => q * (10 : ℚ) ^ n)
      | '-' :: r2 => (digitsU r2).map (fun n => q / (10 : ℚ) ^ n)
      | r2 => (digitsU r2).map (fun n => q * (10 : ℚ) ^ n)
    else none

/-- Python `float(str)` on an unsigned body: the special spellings, or
mantissa followed by exponent. -/
def pyFloatCore (s : List Char) : Option PyNum :=
  if lowerL s = ['i', 'n', 'f'] ∨ lowerL s = ['i', 'n', 'f', 'i', 'n', 'i', 't', 'y'] then
    some .pinf
  else if lowerL s = ['n', 'a', 'n'] then some .nan
  else
    match parseMantissa s with
    | some (q, rest) =>
      match parseExp q rest with
      | some v => some (.fin v)
      | none => none
    | none => none

/-- Python `float(str)`: strip whitespace, optional sign, unsigned body. -/
def pyFloat (s : List Char) : Option PyNum :=
  match pyStrip s with
  | '+' :: r => pyFloatCore r
  | '-' :: r => (pyFloatCore r).map pyNegNum
  | r => pyFloatCore r

/-! ## Character and numeric lemmas -/

theorem dropWhile_no {p : Char → Bool} {s : List Char} (h : ∀ c ∈ s, p c = false) :
    s.dropWhile p = s := by
  cases s with
  | nil => rfl
  | cons c t =>
    rw [List.dropWhile_cons, h c (List.mem_cons_self _ _)]
    simp

theorem pyStrip_no_ws {s : List Char} (h : ∀ c ∈ s, isSpaceC c = false) : pyStrip s = s := by
  unfold pyStrip
  rw [dropWhile_no h]
  rw [dropWhile_no (fun c hc => h c (List.mem_reverse.mp hc))]
  exact List.reverse_reverse s

theorem isDigitC_toNat {c : Char} (h : isDigitC c = true) : 48 ≤ c.toNat ∧ c.toNat ≤ 57 := by
  unfold isDigitC at h
  rw [Bool.and_eq_true, decide_eq_true_eq, decide_eq_true_eq] at h
  exact ⟨h.1, h.2⟩

theorem digit_ne {c x : Char} (h : isDigitC c = true)
    (hx : ¬(48 ≤ x.toNat ∧ x.toNat ≤ 57)) : c ≠ x := by
  intro he
  subst he
  exact hx (isDigitC_toNat h)

theorem digit_not_space {c : Char} (h : isDigitC c = true) : isSpaceC c = false := by
  obtain ⟨h1, h2⟩ := isDigitC_toNat h
  unfold isSpaceC
  simp only [Bool.or_eq_false_iff, decide_eq_false_iff_not]
  refine ⟨⟨⟨⟨⟨?_, ?_⟩, ?_⟩, ?_⟩, ?_⟩, ?_⟩ <;>
    (intro he; subst he; exact absurd (And.intro h1 h2) (by decide))

theorem lowerc_id {c : Char} (h : ¬(65 ≤ c.toNat ∧ c.toNat ≤ 90)) : lowerc c = c := by
  unfold lowerc
  rw [if_neg]
  simp only [Bool.and_eq_true, decide_eq_true_eq]
  intro hcon
  exact h ⟨hcon.1, hcon.2⟩

theorem lowerc_digit {c : Char} (h : isDigitC c = true) : lowerc c = c := by
  obtain ⟨h1, h2⟩ := isDigitC_toNat h
  exact lowerc_id (by omega)

theorem digitsUAux_digits :
    ∀ (s : List Char) (acc : Nat), (∀ c ∈ s, isDigitC c = true) →
      digitsUAux acc s = some (s.foldl (fun a c => a * 10 + digitVal c) acc) := by
  intro s
  induction s with
  | nil => intro acc _; rfl
  | cons c t ih =>
    intro acc h
    unfold digitsUAux
    rw [if_pos (h c (List.mem_cons_self _ _))]
    rw [ih _ (fun d hd => h d (List.mem_cons_of_mem _ hd))]
    rfl

theorem digitsU_digits {s : List Char} (hne : s ≠ []) (h : ∀ c ∈ s, isDigitC c = true) :
    digitsU s = some (digitsToNat s) := by
  cases s with
  | nil => exact absurd rfl hne
  | cons c t =>
    show (if isDigitC c = true then digitsUAux (digitVal c) t else none) = some (digitsToNat (c :: t))
    rw [if_pos (h c (List.mem_cons_self _ _))]
    rw [digitsUAux_digits t (digitVal c) (fun d hd => h d (List.mem_cons_of_mem _ hd))]
    unfold digitsToNat
    rw [List.foldl_cons]
    norm_num

theorem pyInt_digits {s : List Char} (hne : s ≠ []) (h : ∀ c ∈ s, isDigitC c = true) :
    pyInt s = some ((digitsToNat s : Int)) := by
  have hst : pyStrip s = s := pyStrip_no_ws (fun c hc => digit_not_space (h c hc))
  cases s with
  | nil => exact absurd rfl hne
  | cons c t =>
    have hc := h c (List.mem_cons_self _ _)
    unfold pyInt
    rw [hst]
    split
    · rename_i r heq
      injection heq with h1 h2
      exact absurd h1 (digit_ne hc (by decide))
    · rename_i r heq
      injection heq with h1 h2
      exact absurd h1 (digit_ne hc (by decide))
    · rw [digitsU_digits (by simp) h]
      rfl

theorem mantVal_nonneg (ni nf k : Nat) : 0 ≤ mantVal ni nf k := by
  unfold mantVal
  positivity

theorem mantissaOf_nonneg {ip fp : List Char} {q : ℚ} (h : mantissaOf ip fp = some q) :
    0 ≤ q := by
  unfold mantissaOf at h
  cases ip <;> cases fp <;> simp only [Option.map_eq_some'] at h
  · exact absurd h (by simp)
  · obtain ⟨nf, -, heq⟩ := h
    rw [← heq]
    exact mantVal_nonneg _ _ _
  · obtain ⟨ni, -, heq⟩ := h
    rw [← heq]
    exact mantVal_nonneg _ _ _
  · split at h
    · rw [Option.some.injEq] at h
      rw [← h]
      exact mantVal_nonneg _ _ _
    · simp at h

theorem parseMantissa_nonneg {s : List Char} {q : ℚ} {r : List Char}
    (h : parseMantissa s = some (q, r)) : 0 ≤ q := by
  unfold parseMantissa at h
  simp only [] at h
  split at h <;>
    (rw [Option.map_eq_some'] at h
     obtain ⟨w, hw, heq⟩ := h
     rw [Prod.mk.injEq] at heq
     rw [← heq.1]
     exact mantissaOf_nonneg hw)

theorem parseExp_nonneg {q v : ℚ} {s : List Char} (hq : 0 ≤ q)
    (h : parseExp q s = some v) : 0 ≤ v := by
  unfold parseExp at h
  split at h
  · rw [Option.some.injEq] at h
    rw [← h]
    exact hq
  · split at h
    · split at h
      · rw [Option.map_eq_some'] at h
        obtain ⟨n, -, heq⟩ := h
        rw [← heq]
        exact mul_nonneg hq (by positivity)
      · rw [Option.map_eq_some'] at h
        obtain ⟨n, -, heq⟩ := h
        rw [← heq]
        exact div_nonneg hq (by positivity)
      · rw [Option.map_eq_some'] at h
        obtain ⟨n, -, heq⟩ := h
        rw [← heq]
        exact mul_nonneg hq (by positivity)
    · simp at h

theorem pyFloatCore_fin {s : List Char} {v : PyNum}
    (hns : ¬(lowerL s = ['i', 'n', 'f'] ∨
        lowerL s = ['i', 'n', 'f', 'i', 'n', 'i', 't', 'y']) ∧
      lowerL s ≠ ['n', 'a', 'n'])
    (h : pyFloatCore s = some v) : ∃ q, v = .fin q ∧ 0 ≤ q := by
  unfold pyFloatCore at h
  rw [if_neg hns.1, if_neg hns.2] at h
  split at h
  · rename_i q rest hm
    split at h
    · rename_i w he
      rw [Option.some.injEq] at h
      exact ⟨w, h.symm, parseExp_nonneg (parseMantissa_nonneg hm) he⟩
    · simp at h
  · simp at h

theorem digitdot_not_special {s : List Char}
    (hc : ∀ c ∈ s, isDigitC c = true ∨ c = '.') :
    ¬(lowerL s = ['i', 'n', 'f'] ∨ lowerL s = ['i', 'n', 'f', 'i', 'n', 'i', 't', 'y']) ∧
      lowerL s ≠ ['n', 'a', 'n'] := by
  cases s with
  | nil =>
    refine ⟨?_, by simp [lowerL]⟩
    rintro (he | he) <;> simp [lowerL] at he
  | cons c t =>
    have hcc : lowerc c = c := by
      rcases hc c (List.mem_cons_self _ _) with hd | hd
      · exact lowerc_digit hd
      · subst hd; decide
    have hcl : lowerL (c :: t) = c :: lowerL t := by
      rw [show lowerL (c :: t) = lowerc c :: lowerL t from rfl, hcc]
    have hno : ∀ x : Char, c = x → ¬(isDigitC x = true ∨ x = '.') → False := by
      intro x hx hnx
      rcases hc c (List.mem_cons_self _ _) with hd | hd
      · exact hnx (Or.inl (hx ▸ hd))
      · exact hnx (Or.inr (hx ▸ hd))
    constructor
    · rintro (he | he) <;>
      · rw [hcl] at he
        injection he with h1 h2
        exact hno _ h1 (by decide)
    · intro he
      rw [hcl] at he
      injection he with h1 h2
      exact hno _ h1 (by decide)

theorem pyFloat_digitdot {s : List Char} (hc : ∀ c ∈ s, isDigitC c = true ∨ c = '.')
    {v : PyNum} (h : pyFloat s = some v) : ∃ q, v = .fin q ∧ 0 ≤ q := by
  have hsp : ∀ c ∈ s, isSpaceC c = false := by
    intro c hcs
    rcases hc c hcs with hd | hd
    · exact digit_not_space hd
    · subst hd; decide
  have hst : pyStrip s = s := pyStrip_no_ws hsp
  unfold pyFloat at h
  rw [hst] at h
  cases s with
  | nil => exact pyFloatCore_fin (digitdot_not_special hc) h
  | cons c t =>
    split at h
    · rename_i r heq
      injection heq with h1 h2
      exfalso
      rcases hc c (List.mem_cons_self _ _) with hd | hd
      · exact absurd h1 (digit_ne hd (by decide))
      · rw [hd] at h1; exact absurd h1 (by decide)
    · rename_i r heq
      injection heq with h1 h2
      exfalso
      rcases hc c (List.mem_cons_self _ _) with hd | hd
      · exact absurd h1 (digit_ne hd (by decide))
      · rw [hd] at h1; exact absurd h1 (by decide)
    · exact pyFloatCore_fin (digitdot_not_special hc) h

theorem pyFloat_eq_core {s : List Char} (hc : ∀ c ∈ s, isDigitC c = true ∨ c = '.') :
    pyFloat s = pyFloatCore s := by
  have hsp : ∀ c ∈ s, isSpaceC c = false := by
    intro c hcs
    rcases hc c hcs with hd | hd
    · exact digit_not_space hd
    · subst hd; decide
  have hst : pyStrip s = s := pyStrip_no_ws hsp
  unfold pyFloat
  rw [hst]
  cases s with
  | nil => rfl
  | cons c t =>
    split
    · rename_i r heq
      injection heq with h1 h2
      exfalso
      rcases hc c (List.mem_cons_self _ _) with hd | hd
      · exact absurd h1 (digit_ne hd (by decide))
      · rw [hd] at h1; exact absurd h1 (by decide)
    · rename_i r heq
      injection heq with h1 h2
      exfalso
      rcases hc c (List.mem_cons_self _ _) with hd | hd
      · exact absurd h1 (digit_ne hd (by decide))
      · rw [hd] at h1; exact absurd h1 (by decide)
    · rfl

theorem takeWhile_app {p : Char → Bool} {a b : List Char} (ha : ∀ c ∈ a, p c = true) :
    (a ++ b).takeWhile p = a ++ b.takeWhile p := by
  induction a with
  | nil => simp
  | cons c t ih =>
    rw [List.cons_append, List.takeWhile_cons, ha c (List.mem_cons_self _ _)]
    rw [ih (fun d hd => ha d (List.mem_cons_of_mem _ hd))]
    rfl

theorem dropWhile_app {p : Char → Bool} {a b : List Char} (ha : ∀ c ∈ a, p c = true) :
    (a ++ b).dropWhile p = b.dropWhile p := by
  induction a with
  | nil => simp
  | cons c t ih =>
    rw [List.cons_append, List.dropWhile_cons, ha c (List.mem_cons_self _ _)]
    exact ih (fun d hd => ha d (List.mem_cons_of_mem _ hd))

theorem takeWhile_all {p : Char → Bool} {a : List Char} (ha : ∀ c ∈ a, p c = true) :
    a.takeWhile p = a := by
  have := takeWhile_app (b := []) ha
  simpa using this

theorem dropWhile_all {p : Char → Bool} {a : List Char} (ha : ∀ c ∈ a, p c = true) :
    a.dropWhile p = [] := by
  have := dropWhile_app (b := []) ha
  simpa using this

theorem countDigits_all {F : List Char} (hF : ∀ c ∈ F, isDigitC c = true) :
    countDigits F = F.length := by
  unfold countDigits
  rw [List.filter_eq_self.mpr hF]

theorem mantissaOf_digits {I F : List Char} (hI : ∀ c ∈ I, isDigitC c = true)
    (hF : ∀ c ∈ F, isDigitC c = true) (hne : ¬(I = [] ∧ F = [])) :
    mantissaOf I F = some (mantVal (digitsToNat I) (digitsToNat F) F.length) := by
  unfold mantissaOf
  cases I with
  | nil =>
    cases F with
    | nil => exact absurd ⟨rfl, rfl⟩ hne
    | cons f fs =>
      rw [digitsU_digits (by simp) hF]
      rw [Option.map_some']
      rw [countDigits_all hF]
      rfl
  | cons i is =>
    cases F with
    | nil =>
      rw [digitsU_digits (by simp) hI]
      rfl
    | cons f fs =>
      rw [digitsU_digits (by simp) hI, digitsU_digits (by simp) hF]
      rw [countDigits_all hF]

theorem digitU_of_digit {c : Char} (h : isDigitC c = true) : isDigitU c = true := by
  unfold isDigitU
  rw [h]
  rfl

theorem parseMantissa_decimal {I F : List Char} (hI : ∀ c ∈ I, isDigitC c = true)
    (hF : ∀ c ∈ F, isDigitC c = true) (hne : ¬(I = [] ∧ F = [])) :
    parseMantissa (I ++ '.' :: F) =
      some (mantVal (digitsToNat I) (digitsToNat F) F.length, []) := by
  have hIU : ∀ c ∈ I, isDigitU c = true := fun c hc => digitU_of_digit (hI c hc)
  have hFU : ∀ c ∈ F, isDigitU c = true := fun c hc => digitU_of_digit (hF c hc)
  unfold parseMantissa
  simp only []
  have htw : (I ++ '.' :: F).takeWhile isDigitU = I := by
    rw [takeWhile_app hIU, List.takeWhile_cons]
    rw [show isDigitU '.' = false from by decide]
    simp
  have hdw : (I ++ '.' :: F).dropWhile isDigitU = '.' :: F := by
    rw [dropWhile_app hIU, List.dropWhile_cons]
    rw [show isDigitU '.' = false from by decide]
    simp
  rw [htw, hdw]
  show (mantissaOf I (F.takeWhile isDigitU)).map (fun q => (q, F.dropWhile isDigitU)) = _
  rw [takeWhile_all hFU, dropWhile_all hFU]
  rw [mantissaOf_digits hI hF hne]
  rfl

theorem parseMantissa_int {I : List Char} (hI : ∀ c ∈ I, isDigitC c = true) (hne : I ≠ []) :
    parseMantissa I = some (mantVal (digitsToNat I) 0 0, []) := by
  have hIU : ∀ c ∈ I, isDigitU c = true := fun c hc => digitU_of_digit (hI c hc)
  unfold parseMantissa
  simp only []
  rw [takeWhile_all hIU, dropWhile_all hIU]
  show (mantissaOf I []).map (fun q => (q, ([] : List Char))) = _
  rw [mantissaOf_digits hI (by simp) (by intro hcc; exact hne hcc.1)]
  rfl

theorem pyFloat_decimal {I F : List Char} (hI : ∀ c ∈ I, isDigitC c = true)
    (hF : ∀ c ∈ F, isDigitC c = true) (hne : ¬(I = [] ∧ F = [])) :
    pyFloat (I ++ '.' :: F) = some (.fin (mantVal (digitsToNat I) (digitsToNat F) F.length)) := by
  have hc : ∀ c ∈ I ++ '.' :: F, isDigitC c = true ∨ c = '.' := by
    intro c hcm
    rcases List.mem_append.mp hcm with hm | hm
    · exact Or.inl (hI c hm)
    · rcases List.mem_cons.mp hm with hm | hm
      · exact Or.inr hm
      · exact Or.inl (hF c hm)
  rw [pyFloat_eq_core hc]
  unfold pyFloatCore
  rw [if_neg (digitdot_not_special hc).1, if_neg (digitdot_not_special hc).2]
  rw [parseMantissa_decimal hI hF hne]
  rfl

theorem pyFloat_int {I : List Char} (hI : ∀ c ∈ I, isDigitC c = true) (hne : I ≠ []) :
    pyFloat I = some (.fin (mantVal (digitsToNat I) 0 0)) := by
  have hc : ∀ c ∈ I, isDigitC c = true ∨ c = '.' := fun c hc => Or.inl (hI c hc)
  rw [pyFloat_eq_core hc]
  unfold pyFloatCore
  rw [if_neg (digitdot_not_special hc).1, if_neg (digitdot_not_special hc).2]
  rw [parseMantissa_int hI hne]
  rfl

/-! ## Value normalizers (`parser/utils/normalize.py`) -/

/-- A Python value a caller may pass to `normalize_currency`: `None`, a
number (`int`/`float`), or a string. -/
inductive PyVal where
  | none
  | num (q : ℚ)
  | str (s : List Char)
deriving DecidableEq, Repr

/-- The characters removed by the cleaning step of `normalize_currency`
(the source substitution `re.sub` of the class of the four currency
glyphs, comma and whitespace, by the empty string). -/
def isCurrencyJunk (c : Char) : Bool :=
  c = '₹' || c = '$' || c = '€' || c = '£' || c = ',' || isSpaceC c

/-- The function `normalize_currency`: numeric input is converted to
float; a string is cleaned by removing currency symbols, commas and
whitespace; an empty cleaned string gives none; otherwise the cleaned
string is parsed with Python `float`, and a parse failure (caught by the
source's `except`) gives none. -/
def normalize_currency : PyVal → Option PyNum
  | .none => Option.none
  | .num q => some (.fin q)
  | .str s =>
    let cleaned := s.filter (fun c => !isCurrencyJunk c)
    if cleaned = [] then Option.none
    else pyFloat cleaned

/-! ## Date model (`normalize_date` over a model of dateutil) -/

/-- A token of a date string: a digit run or a letter run. -/
inductive DTok where
  | num (ds : List Char)
  | alpha (ls : List Char)
deriving DecidableEq, Repr

/-- Date-token separators accepted by the model. -/
def isSepC (c : Char) : Bool := c = '/' || c = '-' || c = ' ' || c = ','

/-- ASCII letter. -/
def isAlphaC (c : Char) : Bool := ('a' ≤ c && c ≤ 'z') || ('A' ≤ c && c ≤ 'Z')

/-- Close the token under construction. -/
def flushTok : Option DTok → List DTok → List DTok
  | Option.none, acc => acc
  | some tk, acc => tk :: acc

/-- Tokenizer worker: `acc` holds finished tokens in reverse, `cur` the
token under construction.  Any character that is not a digit, letter or
separator makes the whole date unparseable. -/
def dateToksGo (acc : List DTok) (cur : Option DTok) : List Char → Option (List DTok)
  | [] => some (flushTok cur acc).reverse
  | c :: t =>
    if isDigitC c then
      match cur with
      | some (DTok.num ds) => dateToksGo acc (some (.num (ds ++ [c]))) t
      | some (DTok.alpha ls) => dateToksGo (flushTok (some (.alpha ls)) acc) (some (.num [c])) t
      | Option.none => dateToksGo acc (some (.num [c])) t
    else if isAlphaC c then
      match cur with
      | some (DTok.alpha ls) => dateToksGo acc (some (.alpha (ls ++ [c]))) t
      | some (DTok.num ds) => dateToksGo (flushTok (some (.num ds)) acc) (some (.alpha [c])) t
      | Option.none => dateToksGo acc (some (.alpha [c])) t
    else if isSepC c then dateToksGo (flushTok cur acc) Option.none t
    else Option.none

/-- Tokenize a date string. -/
def dateToks (s : List Char) : Option (List DTok) := dateToksGo [] Option.none s

/-- English month names (dateutil accepts full names and their first
three letters, case-insensitively). -/
def monthNames : List (List Char) :=
  [sl "january", sl "february", sl "march", sl "april", sl "may", sl "june",
   sl "july", sl "august", sl "september", sl "october", sl "november", sl "december"]

/-- Month-name lookup worker. -/
def monthFind : Nat → List (List Char) → List Char → Option Nat
  | _, [], _ => Option.none
  | i, m :: ms, low => if low = m || low = m.take 3 then some (i + 1) else monthFind (i + 1) ms low

/-- Month number of an alphabetic token, if it names a month. -/
def monthOfTok (ls : List Char) : Option Nat := monthFind 0 monthNames (lowerL ls)

/-- Gregorian leap year. -/
def isLeap (y : Nat) : Bool := (y % 4 = 0 && !(y % 100 = 0)) || y % 400 = 0

/-- Number of days of a month (as validated by Python's `datetime`). -/
def daysInMonth (m y : Nat) : Nat :=
  if m = 2 then (if isLeap y then 29 else 28)
  else if m = 4 || m = 6 || m = 9 || m = 11 then 30 else 31

/-- Is (year, month, day) a valid `datetime.date`? -/
def validDate (y m d : Nat) : Bool :=
  1 ≤ m && m ≤ 12 && 1 ≤ d && d ≤ daysInMonth m y && 1 ≤ y && y ≤ 9999

/-- Modelled from the spec: `dateutil.parser.parse` (a third-party
library, not part of this repository) with `dayfirst=True, yearfirst=False`
on complete dates: a 4-digit leading number is a year and the rest is
month then day (ISO order, where dateutil ignores `dayfirst`); otherwise
with a trailing 4-digit year, `dayfirst` prefers day-month order and
swaps only when the month slot would be impossible; a textual month is
recognised in day, month-name, year order.  Everything else is treated
as unparseable (the model omits dateutil's two-digit years and
current-date defaults, which the repository's claims never exercise). -/
def duParse : List DTok → Option (Nat × Nat × Nat)
  | [DTok.num a, DTok.num b, DTok.num c] =>
    if a.length = 4 then
      if b.length ≤ 2 && c.length ≤ 2 && validDate (digitsToNat a) (digitsToNat b) (digitsToNat c)
      then some (digitsToNat a, digitsToNat b, digitsToNat c)
      else Option.none
    else if c.length = 4 && a.length ≤ 2 && b.length ≤ 2 then
      if digitsToNat b ≤ 12 then
        if validDate (digitsToNat c) (digitsToNat b) (digitsToNat a)
        then some (digitsToNat c, digitsToNat b, digitsToNat a)
        else Option.none
      else
        if validDate (digitsToNat c) (digitsToNat a) (digitsToNat b)
        then some (digitsToNat c, digitsToNat a, digitsToNat b)
        else Option.none
    else Option.none
  | [DTok.num d, DTok.alpha mon, DTok.num ys] =>
    match monthOfTok mon with
    | some m =>
      if ys.length = 4 && d.length ≤ 2 && validDate (digitsToNat ys) m (digitsToNat d)
      then some (digitsToNat ys, m, digitsToNat d)
      else Option.none
    | Option.none => Option.none
  | _ => Option.none

/-- Digits of a natural number padded with zeros to width `w`
(Python `strftime` field widths). -/
def padNum (w n : Nat) : List Char :=
  let ds := Nat.toDigits 10 n
  List.replicate (w - ds.length) '0' ++ ds

/-- Canonical rendering `YYYY-MM-DD` (Python `strftime('%Y-%m-%d')`). -/
def renderISO (y m d : Nat) : List Char :=
  padNum 4 y ++ '-' :: (padNum 2 m ++ '-' :: padNum 2 d)

/-- The function `normalize_date`: `None` gives none, the string is
stripped, an empty string gives none, otherwise it is parsed with the
dateutil model above and rendered as `YYYY-MM-DD`; a parse failure
(caught by the source's `except`) gives none. -/
def normalize_date (o : Option (List Char)) : Option (List Char) :=
  match o with
  | Option.none => Option.none
  | some s =>
    let t := pyStrip s
    if t = [] then Option.none
    else
      match dateToks t with
      | some toks =>
        match duParse toks with
        | some (y, m, d) => some (renderISO y m d)
        | Option.none => Option.none
      | Option.none => Option.none

/-! ## Result records and the confidence scorer -/

/-- The nested `billing_period` mapping with keys `start` and `end`
(field names `pstart`/`pend` stand for those keys). -/
structure BillingPeriod where
  pstart : Option (List Char)
  pend : Option (List Char)
deriving DecidableEq, Repr

/-- An extraction result record, one per processed document. -/
structure Result where
  issuer : String
  card_last4 : Option (List Char)
  billing_period : BillingPeriod
  payment_due_date : Option (List Char)
  minimum_due : Option PyNum
  new_balance : Option PyNum
  confidence : ℚ
deriving DecidableEq, Repr

/-- Python truthiness of an optional string (`None` and the empty string
are falsy). -/
def strTruthy : Option (List Char) → Bool
  | Option.none => false
  | some s => !s.isEmpty

/-- Rounding to two decimal places (Python `round(x, 2)`; on every value
the scorer can produce the tie-breaking mode is irrelevant because no
half-cent values arise). -/
def round2 (q : ℚ) : ℚ := (⌊q * 100 + 1 / 2⌋ : ℚ) / 100

/-- The function `calculate_confidence`: the four required fields score
1.0 each — `billing_period` only when both its `start` and its `end` are
set (Python truthiness; the nested dict itself is always a nonempty dict
in every record the parsers build, hence truthy) — `minimum_due` scores
0.5, and the total is divided by the fixed maximum 4.5 and rounded to
two decimals. -/
def calculate_confidence (data : Result) : ℚ :=
  let bpScore : ℚ :=
    if strTruthy data.billing_period.pstart && strTruthy data.billing_period.pend then 1 else 0
  let score : ℚ :=
    (if data.card_last4.isSome then 1 else 0) + bpScore
      + (if data.payment_due_date.isSome then 1 else 0)
      + (if data.new_balance.isSome then 1 else 0)
      + (if data.minimum_due.isSome then (1 / 2 : ℚ) else 0)
  let maxScore : ℚ := 4 + 1 / 2
  if maxScore > 0 then round2 (score / maxScore) else 0

/-! ## The concrete patterns of the source -/

/-- Concatenation of a list of regexes. -/
def rcat : List RE → RE
  | [] => .eps
  | [r] => r
  | r :: rs => .cat r (rcat rs)

/-- Literal word regex. -/
def lw (s : String) : RE := strRE (sl s)

/-- Class `\d`. -/
def dgCls : CClass := ⟨false, [.digit]⟩

/-- Class `\s`. -/
def spCls : CClass := ⟨false, [.space]⟩

/-- Class `.` (any character except newline). -/
def dotCls : CClass := ⟨true, [.ch '\n']⟩

/-- Class `[:\s]`. -/
def colonSpCls : CClass := ⟨false, [.ch ':', .space]⟩

/-- Class `[-–]`. -/
def dashCls : CClass := ⟨false, [.ch '-', .ch '–']⟩

/-- Greedy `+` on a class. -/
def plusC (cc : CClass) : RE := .reps 1 Option.none false cc

/-- Greedy `*` on a class. -/
def starC (cc : CClass) : RE := .reps 0 Option.none false cc

/-- Lazy `*?` on a class. -/
def starLazyC (cc : CClass) : RE := .reps 0 Option.none true cc

/-- Greedy `?` on a class. -/
def optC (cc : CClass) : RE := .reps 0 (some 1) false cc

/-- Exact repetition `{n}` on a class. -/
def repN (n : Nat) (cc : CClass) : RE := .reps n (some n) false cc

/-- Bounded repetition `{lo,hi}` on a class. -/
def rep2 (lo hi : Nat) (cc : CClass) : RE := .reps lo (some hi) false cc

/-- Separator `\s+` between the words of a label phrase. -/
def wsp : RE := plusC spCls

/-- One masked group `(?:XXXX|[*•]{4}|[\d]{4})` of the masked-number pattern. -/
def maskGroup : RE :=
  .alt (lw "XXXX") (.alt (repN 4 ⟨false, [.ch '*', .ch '•']⟩) (repN 4 dgCls))

/-- The separator `\s*(?:[-*\s]*)\s*` of the masked-number pattern. -/
def maskSep : RE :=
  rcat [starC spCls, starC ⟨false, [.ch '-', .ch '*', .space]⟩, starC spCls]

/-- The masked-number pattern of `extract_card_last4` (also used by
`parse_hdfc`): three masked groups and separators followed by the
captured `(\d{4})`. -/
def maskedRE : RE :=
  rcat [maskGroup, maskSep, maskGroup, maskSep, maskGroup, maskSep, .group 1 (repN 4 dgCls)]

/-- Keyword pattern 2 of `extract_card_last4`:
the keyword, `[:\s]+`, `(?:.*?)?`, `(\d{4})`, `(?!\d)`. -/
def p2RE (kw : List Char) : RE :=
  rcat [strRE kw, plusC colonSpCls, .opt (starLazyC dotCls),
        .group 1 (repN 4 dgCls), .nla (.cls dgCls)]

/-- Line pattern 3 of `extract_card_last4`: `(\d{4})(?!\d)`. -/
def d4RE : RE := .cat (.group 1 (repN 4 dgCls)) (.nla (.cls dgCls))

/-- Python slice `t[a:b]` (indices already clamped at zero). -/
def sliceStr (t : List Char) (a b : Nat) : List Char := (t.drop a).take (b - a)

/-- The corroborating terms of the ±50-character context check. -/
def ctxKws : List (List Char) :=
  [sl "card", sl "account", sl "number", sl "ending", sl "xxxx"]

/-- The context check of pattern 2: a window of 50 characters around the
match must contain a corroborating term (case-insensitively). -/
def ctxOK (t : List Char) (s e : Nat) : Bool :=
  let context := sliceStr t (s - 50) (min t.length (e + 50))
  ctxKws.any (fun kw => strContains (lowerL context) kw)

/-- Inner loop of pattern 2 over the matches of one keyword, most recent
first: skip year-like candidates and candidates without corroborating
context; `int` failure (`except ValueError`) also skips. -/
def p2Scan (t : List Char) : List (Nat × Nat × Caps) → Option (List Char)
  | [] => Option.none
  | (s, e, caps) :: rest =>
    match capLookup 1 caps with
    | some last4 =>
      match pyInt last4 with
      | some y =>
        if ¬(1900 ≤ y ∧ y ≤ 2099) then
          if ctxOK t s e then some last4 else p2Scan t rest
        else p2Scan t rest
      | Option.none => p2Scan t rest
    | Option.none => p2Scan t rest

/-- Outer loop of pattern 2 over the supplied keywords. -/
def p2Loop (t : List Char) : List (List Char) → Option (List Char)
  | [] => Option.none
  | kw :: rest =>
    match p2Scan t (findIter true (p2RE kw) t).reverse with
    | some l4 => some l4
    | Option.none => p2Loop t rest

/-- Pattern 3: scan the lines holding account/card/number for a
non-year 4-digit token. -/
def p3Scan : List (List Char) → Option (List Char)
  | [] => Option.none
  | line :: rest =>
    if [sl "account", sl "card", sl "number"].any (fun kw => strContains (lowerL line) kw) then
      match reSearch false d4RE line with
      | some r =>
        match capLookup 1 r.caps with
        | some l4 =>
          match pyInt l4 with
          | some y => if ¬(1900 ≤ y ∧ y ≤ 2099) then some l4 else p3Scan rest
          | Option.none => p3Scan rest
        | Option.none => p3Scan rest
      | Option.none => p3Scan rest
    else p3Scan rest

/-- Patterns 2 and 3 of `extract_card_last4`. -/
def extractTail (text : List Char) (kws : List (List Char)) : Option (List Char) :=
  match p2Loop text kws with
  | some l4 => some l4
  | Option.none => p3Scan (text.splitOn '\n')

/-- The function `extract_card_last4` of normalize.py.  The keyword list
is the one supplied by the call site (every call site passes one, so the
source's default list is never used).  A successful pattern always
records its group 1, so a missing capture is treated as no match. -/
def extract_card_last4 (text : List Char) (kws : List (List Char)) : Option (List Char) :=
  if text = [] then Option.none
  else
    match reSearch true maskedRE text with
    | some r =>
      match capLookup 1 r.caps with
      | some last4 =>
        match pyInt last4 with
        | some y =>
          if ¬(1900 ≤ y ∧ y ≤ 2099) then some last4
          else extractTail text kws
        | Option.none => some last4
      | Option.none => extractTail text kws
    | Option.none => extractTail text kws

/-- A Python exception (the body of an extractor can raise, e.g. a bare
`int(...)` call; the outer handler catches every exception alike). -/
inductive PyExc where
  | err
deriving DecidableEq, Repr

/-- Group 1 of the leftmost match, both groups of a two-group pattern. -/
def searchCap2 (ci : Bool) (re : RE) (t : List Char) : Option (List Char × List Char) :=
  match reSearch ci re t with
  | some r =>
    match capLookup 1 r.caps, capLookup 2 r.caps with
    | some a, some b => some (a, b)
    | _, _ => Option.none
  | Option.none => Option.none

/-! ## OneCard (`issuer_parsers/onecard.py`) -/

/-- Class `\w`. -/
def wCls : CClass := ⟨false, [.word]⟩

/-- Class of slash and hyphen (the date-delimiter class of the second
`extract_dates` pattern). -/
def slashDashCls : CClass := ⟨false, [.ch '/', .ch '-']⟩

/-- Group `(\d{1,2}\s+\w+\s+\d{4})` of the first billing-period pattern. -/
def dmyRE (g : Nat) : RE :=
  .group g (rcat [rep2 1 2 dgCls, plusC spCls, plusC wCls, plusC spCls, repN 4 dgCls])

/-- First pattern of `extract_dates`: two day-month-year dates joined by
a dash. -/
def ocDates1RE : RE := rcat [dmyRE 1, starC spCls, .cls dashCls, starC spCls, dmyRE 2]

/-- Group of the second pattern: `\d{1,2}`, a slash-or-hyphen delimiter,
`\d{1,2}`, another delimiter, `\d{2,4}`, all captured. -/
def numDateRE (g : Nat) : RE :=
  .group g (rcat [rep2 1 2 dgCls, .cls slashDashCls, rep2 1 2 dgCls, .cls slashDashCls,
    rep2 2 4 dgCls])

/-- Second pattern of `extract_dates`: two slash-delimited numeric dates
joined by a dash. -/
def ocDates2RE : RE := rcat [numDateRE 1, starC spCls, .cls dashCls, starC spCls, numDateRE 2]

/-- The function `extract_dates` of onecard.py. -/
def extract_dates (text : List Char) : Option (List Char) × Option (List Char) :=
  match searchCap2 true ocDates1RE text with
  | some (a, b) => (some (pyStrip a), some (pyStrip b))
  | Option.none =>
    match searchCap2 false ocDates2RE text with
    | some (a, b) => (some (pyStrip a), some (pyStrip b))
    | Option.none => (Option.none, Option.none)

/-- OneCard fallback card pattern
`(?:OneCard|Card)\s*(?:Number|No\.?)[:\s]+.*?(\d{4})\b`. -/
def ocCardFbRE : RE :=
  rcat [.alt (lw "OneCard") (lw "Card"), starC spCls,
        .alt (lw "Number") (.cat (lw "No") (optC ⟨false, [.ch '.']⟩)),
        plusC colonSpCls, starLazyC dotCls, .group 1 (repN 4 dgCls), .wb]

/-- Class `[\w\d\s/\-]` (due-date captures). -/
def dueCapCls : CClass := ⟨false, [.word, .digit, .space, .ch '/', .ch '-']⟩

/-- Class `[\d,\.\s]` (currency captures). -/
def moneyCls : CClass := ⟨false, [.digit, .ch ',', .ch '.', .space]⟩

/-- Class `[₹$]`. -/
def glyphRS : CClass := ⟨false, [.ch '₹', .ch '$']⟩

/-- Class `[$₹]`. -/
def glyphSR : CClass := ⟨false, [.ch '$', .ch '₹']⟩

/-- Currency capture `([₹$]?[\d,\.\s]+)` (glyph class per call site). -/
def moneyCap (g : CClass) : RE := .group 1 (.cat (optC g) (plusC moneyCls))

/-- OneCard `Payment\s+Due\s+Date[:\s]+([\w\d\s/\-]+)`. -/
def ocDueRE : RE :=
  rcat [lw "Payment", wsp, lw "Due", wsp, lw "Date", plusC colonSpCls, .group 1 (plusC dueCapCls)]

/-- OneCard `Minimum\s+Amount\s+Due[:\s]+([₹$]?[\d,\.\s]+)`. -/
def ocMinRE : RE :=
  rcat [lw "Minimum", wsp, lw "Amount", wsp, lw "Due", plusC colonSpCls, moneyCap glyphRS]

/-- OneCard `(?:New\s+Balance|Total\s+Amount\s+Due)[:\s]+([₹$]?[\d,\.\s]+)`. -/
def ocBalRE : RE :=
  rcat [.alt (rcat [lw "New", wsp, lw "Balance"]) (rcat [lw "Total", wsp, lw "Amount", wsp, lw "Due"]),
        plusC colonSpCls, moneyCap glyphRS]

/-- The all-none OneCard record (short-circuit and error paths). -/
def onecardDefault : Result :=
  { issuer := "OneCard", card_last4 := Option.none,
    billing_period := ⟨Option.none, Option.none⟩, payment_due_date := Option.none,
    minimum_due := Option.none, new_balance := Option.none, confidence := 0 }

/-- The OneCard body after the short-circuit check. -/
def ocRest (text : List Char) : Result :=
    let last4a := extract_card_last4 text [sl "Card", sl "Account", sl "OneCard"]
    let last4 := if strTruthy last4a then last4a
      else match searchCap 1 true ocCardFbRE text with
        | some c => some c
        | Option.none => last4a
    let sd := extract_dates text
    let startN := if strTruthy sd.1 then normalize_date sd.1 else Option.none
    let endN := if strTruthy sd.2 then normalize_date sd.2 else Option.none
    let due := (searchCap 1 true ocDueRE text).bind (fun c => normalize_date (some (pyStrip c)))
    let mindue := (searchCap 1 true ocMinRE text).bind (fun c => normalize_currency (.str c))
    let newbal := (searchCap 1 true ocBalRE text).bind (fun c => normalize_currency (.str c))
    let r0 : Result :=
      { issuer := "OneCard", card_last4 := last4,
        billing_period := ⟨startN, endN⟩, payment_due_date := due,
        minimum_due := mindue, new_balance := newbal, confidence := 0 }
    { r0 with confidence := calculate_confidence r0 }

/-- Body of `parse_onecard` on acquired text (no statement of this body
can raise, so it always returns `.ok`). -/
def parse_onecardText (text : List Char) : Except PyExc Result :=
  if text = [] ∨ (pyStrip text).length < 10 then .ok onecardDefault
  else .ok (ocRest text)

/-- The function `parse_onecard`, as a function of the acquisition
outcome; the outer `try`/`except` turns any raised exception into the
all-none record. -/
def parse_onecard (acq : Except PyExc (List Char)) : Result :=
  match acq.bind parse_onecardText with
  | .ok r => r
  | .error _ => onecardDefault

/-! ## BuildingBlocks (`issuer_parsers/buildingblocks.py`) -/

/-- Class `[X*\s-]` of the BuildingBlocks/FirstCitizens fallback. -/
def xmaskCls : CClass := ⟨false, [.ch 'X', .ch '*', .space, .ch '-']⟩

/-- Fallback card pattern
`Account\s+Number[:\s]+(?:.*?[X*\s-]+)?(\d{4})\b` (shared by
BuildingBlocks and FirstCitizens). -/
def acctFbRE : RE :=
  rcat [lw "Account", wsp, lw "Number", plusC colonSpCls,
        .opt (.cat (starLazyC dotCls) (plusC xmaskCls)), .group 1 (repN 4 dgCls), .wb]

/-- Class of slash and whitespace (`Opening`, slash-or-space run,
`Closing`). -/
def slashSpCls : CClass := ⟨false, [.ch '/', .space]⟩

/-- Class of digit, slash, hyphen and whitespace (numeric billing-period
captures). -/
def numCapCls : CClass := ⟨false, [.digit, .ch '/', .ch '-', .space]⟩

/-- BuildingBlocks `Opening[/\s]+Closing\s+Date` billing-period pattern. -/
def bbCycleRE : RE :=
  rcat [lw "Opening", plusC slashSpCls, lw "Closing", wsp, lw "Date", plusC colonSpCls,
        .group 1 (plusC numCapCls), starC spCls, .cls dashCls, starC spCls,
        .group 2 (plusC numCapCls)]

/-- BuildingBlocks alternative billing-period pattern
`(?:Billing\s+Period|Statement\s+Period)`. -/
def bbCycleAltRE : RE :=
  rcat [.alt (rcat [lw "Billing", wsp, lw "Period"]) (rcat [lw "Statement", wsp, lw "Period"]),
        plusC colonSpCls, .group 1 (plusC numCapCls), starC spCls, .cls dashCls, starC spCls,
        .group 2 (plusC numCapCls)]

/-- Class of digit, slash, hyphen, word and whitespace (BuildingBlocks
due-date capture). -/
def bbDueCls : CClass := ⟨false, [.digit, .ch '/', .ch '-', .word, .space]⟩

/-- BuildingBlocks `Payment\s+Due\s+Date` pattern. -/
def bbDueRE : RE :=
  rcat [lw "Payment", wsp, lw "Due", wsp, lw "Date", plusC colonSpCls, .group 1 (plusC bbDueCls)]

/-- BuildingBlocks `Minimum\s+Payment` pattern. -/
def bbMinRE : RE :=
  rcat [lw "Minimum", wsp, lw "Payment", plusC colonSpCls, moneyCap glyphSR]

/-- BuildingBlocks `New\s+Balance` pattern. -/
def bbBalRE : RE := rcat [lw "New", wsp, lw "Balance", plusC colonSpCls, moneyCap glyphSR]

/-- BuildingBlocks fallback `Total\s+Amount\s+Due` pattern. -/
def bbBalFbRE : RE :=
  rcat [lw "Total", wsp, lw "Amount", wsp, lw "Due", plusC colonSpCls, moneyCap glyphSR]

/-- The all-none BuildingBlocks record. -/
def buildingblocksDefault : Result :=
  { issuer := "BuildingBlocks", card_last4 := Option.none,
    billing_period := ⟨Option.none, Option.none⟩, payment_due_date := Option.none,
    minimum_due := Option.none, new_balance := Option.none, confidence := 0 }

/-- The BuildingBlocks body after the short-circuit check. -/
def bbRest (text : List Char) : Result :=
    let last4a := extract_card_last4 text [sl "Account", sl "Card", sl "Number"]
    let last4 := if strTruthy last4a then last4a
      else match searchCap 1 true acctFbRE text with
        | some c => some c
        | Option.none => last4a
    let bp := match searchCap2 true bbCycleRE text with
      | some (a, b) => (normalize_date (some (pyStrip a)), normalize_date (some (pyStrip b)))
      | Option.none =>
        match searchCap2 true bbCycleAltRE text with
        | some (a, b) => (normalize_date (some (pyStrip a)), normalize_date (some (pyStrip b)))
        | Option.none => (Option.none, Option.none)
    let due := (searchCap 1 true bbDueRE text).bind (fun c => normalize_date (some (pyStrip c)))
    let mindue := (searchCap 1 true bbMinRE text).bind (fun c => normalize_currency (.str c))
    let newbal := match searchCap 1 true bbBalRE text with
      | some c => normalize_currency (.str c)
      | Option.none => (searchCap 1 true bbBalFbRE text).bind (fun c => normalize_currency (.str c))
    let r0 : Result :=
      { issuer := "BuildingBlocks", card_last4 := last4,
        billing_period := ⟨bp.1, bp.2⟩, payment_due_date := due,
        minimum_due := mindue, new_balance := newbal, confidence := 0 }
    { r0 with confidence := calculate_confidence r0 }

/-- Body of `parse_buildingblocks` on acquired text. -/
def parse_buildingblocksText (text : List Char) : Except PyExc Result :=
  if text = [] ∨ (pyStrip text).length < 10 then .ok buildingblocksDefault
  else .ok (bbRest text)

/-- The function `parse_buildingblocks`, over the acquisition outcome. -/
def parse_buildingblocks (acq : Except PyExc (List Char)) : Result :=
  match acq.bind parse_buildingblocksText with
  | .ok r => r
  | .error _ => buildingblocksDefault

/-! ## HDFC (`issuer_parsers/hdfc.py`) -/

/-- Class of digit, whitespace, word and slash (HDFC billing-period
captures). -/
def hdfcCapCls : CClass := ⟨false, [.digit, .space, .word, .ch '/']⟩

/-- HDFC `Statement\s+Period` billing-period pattern. -/
def hdfcCycleRE : RE :=
  rcat [lw "Statement", wsp, lw "Period", plusC colonSpCls,
        .group 1 (plusC hdfcCapCls), starC spCls, .cls dashCls, starC spCls,
        .group 2 (plusC hdfcCapCls)]

/-- HDFC alternative `(?:Billing\s+Period|Billing\s+Cycle)` pattern. -/
def hdfcCycleAltRE : RE :=
  rcat [.alt (rcat [lw "Billing", wsp, lw "Period"]) (rcat [lw "Billing", wsp, lw "Cycle"]),
        plusC colonSpCls, .group 1 (plusC hdfcCapCls), starC spCls, .cls dashCls, starC spCls,
        .group 2 (plusC hdfcCapCls)]

/-- Class of digit, word, whitespace, slash and hyphen (HDFC due-date
capture). -/
def hdfcDueCls : CClass := ⟨false, [.digit, .word, .space, .ch '/', .ch '-']⟩

/-- HDFC `Payment\s+Due\s+Date` pattern. -/
def hdfcDueRE : RE :=
  rcat [lw "Payment", wsp, lw "Due", wsp, lw "Date", plusC colonSpCls, .group 1 (plusC hdfcDueCls)]

/-- HDFC `(?:Minimum\s+Amount\s+Due|Minimum\s+Due)` pattern. -/
def hdfcMinRE : RE :=
  rcat [.alt (rcat [lw "Minimum", wsp, lw "Amount", wsp, lw "Due"])
             (rcat [lw "Minimum", wsp, lw "Due"]),
        plusC colonSpCls, moneyCap glyphRS]

/-- HDFC `(?:Total\s+Amount\s+Due|New\s+Balance)` pattern. -/
def hdfcBalRE : RE :=
  rcat [.alt (rcat [lw "Total", wsp, lw "Amount", wsp, lw "Due"])
             (rcat [lw "New", wsp, lw "Balance"]),
        plusC colonSpCls, moneyCap glyphRS]

/-- The all-none HDFC record. -/
def hdfcDefault : Result :=
  { issuer := "HDFC", card_last4 := Option.none,
    billing_period := ⟨Option.none, Option.none⟩, payment_due_date := Option.none,
    minimum_due := Option.none, new_balance := Option.none, confidence := 0 }

/-- Everything of the HDFC body after the masked-pattern attempt
(`last4m` is the suffix accepted by the masked pattern, if any). -/
def hdfcRest (text : List Char) (last4m : Option (List Char)) : Result :=
  let last4 := if strTruthy last4m then last4m
    else extract_card_last4 text [sl "Card", sl "Account", sl "HDFC", sl "XXXX"]
  let bp := match searchCap2 true hdfcCycleRE text with
    | some (a, b) => (normalize_date (some (pyStrip a)), normalize_date (some (pyStrip b)))
    | Option.none =>
      match searchCap2 true hdfcCycleAltRE text with
      | some (a, b) => (normalize_date (some (pyStrip a)), normalize_date (some (pyStrip b)))
      | Option.none => (Option.none, Option.none)
  let due := (searchCap 1 true hdfcDueRE text).bind (fun c => normalize_date (some (pyStrip c)))
  let mindue := (searchCap 1 true hdfcMinRE text).bind (fun c => normalize_currency (.str c))
  let newbal := (searchCap 1 true hdfcBalRE text).bind (fun c => normalize_currency (.str c))
  let r0 : Result :=
    { issuer := "HDFC", card_last4 := last4,
      billing_period := ⟨bp.1, bp.2⟩, payment_due_date := due,
      minimum_due := mindue, new_balance := newbal, confidence := 0 }
  { r0 with confidence := calculate_confidence r0 }

/-- Body of `parse_hdfc` on acquired text.  The masked-pattern branch
calls `int(...)` outside any inner handler, so an unparseable candidate
would raise (caught only by the outer boundary). -/
def parse_hdfcText (text : List Char) : Except PyExc Result :=
  if text = [] ∨ (pyStrip text).length < 10 then .ok hdfcDefault
  else
    match searchCap 1 true maskedRE text with
    | some cand =>
      match pyInt cand with
      | some y => .ok (hdfcRest text (if ¬(1900 ≤ y ∧ y ≤ 2099) then some cand else Option.none))
      | Option.none => .error .err
    | Option.none => .ok (hdfcRest text Option.none)

/-- The function `parse_hdfc`, over the acquisition outcome. -/
def parse_hdfc (acq : Except PyExc (List Char)) : Result :=
  match acq.bind parse_hdfcText with
  | .ok r => r
  | .error _ => hdfcDefault

/-! ## AMEX (`issuer_parsers/amex.py`) -/

/-- AMEX card pattern
`(?:Card\s+Ending\s+(?:in\s+)?|Card\s+No\.?\s*)(\d{4})\b`. -/
def amexCardRE : RE :=
  rcat [.alt (rcat [lw "Card", wsp, lw "Ending", wsp, .opt (.cat (lw "in") wsp)])
             (rcat [lw "Card", wsp, lw "No", optC ⟨false, [.ch '.']⟩, starC spCls]),
        .group 1 (repN 4 dgCls), .wb]

/-- Class of word, digit, whitespace and slash (AMEX/FirstCitizens
billing-period captures). -/
def amexCapCls : CClass := ⟨false, [.word, .digit, .space, .ch '/']⟩

/-- AMEX `(?:Statement\s+Period|Billing\s+Cycle)` pattern. -/
def amexCycleRE : RE :=
  rcat [.alt (rcat [lw "Statement", wsp, lw "Period"]) (rcat [lw "Billing", wsp, lw "Cycle"]),
        plusC colonSpCls, .group 1 (plusC amexCapCls), starC spCls, .cls dashCls, starC spCls,
        .group 2 (plusC amexCapCls)]

/-- AMEX `(?:Payment\s+Due\s+Date|Due\s+Date)` pattern. -/
def amexDueRE : RE :=
  rcat [.alt (rcat [lw "Payment", wsp, lw "Due", wsp, lw "Date"]) (rcat [lw "Due", wsp, lw "Date"]),
        plusC colonSpCls, .group 1 (plusC dueCapCls)]

/-- AMEX `(?:Minimum\s+Amount\s+Due|Minimum\s+Due)` pattern. -/
def amexMinRE : RE :=
  rcat [.alt (rcat [lw "Minimum", wsp, lw "Amount", wsp, lw "Due"])
             (rcat [lw "Minimum", wsp, lw "Due"]),
        plusC colonSpCls, moneyCap glyphRS]

/-- AMEX `(?:New\s+Balance|Total\s+Due)` pattern. -/
def amexBalRE : RE :=
  rcat [.alt (rcat [lw "New", wsp, lw "Balance"]) (rcat [lw "Total", wsp, lw "Due"]),
        plusC colonSpCls, moneyCap glyphRS]

/-- AMEX fallback `Total\s+Amount\s+Due` pattern. -/
def amexBalFbRE : RE :=
  rcat [lw "Total", wsp, lw "Amount", wsp, lw "Due", plusC colonSpCls, moneyCap glyphRS]

/-- The all-none AMEX record. -/
def amexDefault : Result :=
  { issuer := "AMEX", card_last4 := Option.none,
    billing_period := ⟨Option.none, Option.none⟩, payment_due_date := Option.none,
    minimum_due := Option.none, new_balance := Option.none, confidence := 0 }

/-- Everything of the AMEX body after its own card-pattern attempt. -/
def amexRest (text : List Char) (last4m : Option (List Char)) : Result :=
  let last4 := if strTruthy last4m then last4m
    else extract_card_last4 text [sl "Card", sl "AMEX", sl "American Express", sl "Ending"]
  let bp := match searchCap2 true amexCycleRE text with
    | some (a, b) => (normalize_date (some (pyStrip a)), normalize_date (some (pyStrip b)))
    | Option.none => (Option.none, Option.none)
  let due := (searchCap 1 true amexDueRE text).bind (fun c => normalize_date (some (pyStrip c)))
  let mindue := (searchCap 1 true amexMinRE text).bind (fun c => normalize_currency (.str c))
  let newbal := match searchCap 1 true amexBalRE text with
    | some c => normalize_currency (.str c)
    | Option.none => (searchCap 1 true amexBalFbRE text).bind (fun c => normalize_currency (.str c))
  let r0 : Result :=
    { issuer := "AMEX", card_last4 := last4,
      billing_period := ⟨bp.1, bp.2⟩, payment_due_date := due,
      minimum_due := mindue, new_balance := newbal, confidence := 0 }
  { r0 with confidence := calculate_confidence r0 }

/-- Body of `parse_amex` on acquired text (its card branch calls a bare
`int(...)`). -/
def parse_amexText (text : List Char) : Except PyExc Result :=
  if text = [] ∨ (pyStrip text).length < 10 then .ok amexDefault
  else
    match searchCap 1 true amexCardRE text with
    | some cand =>
      match pyInt cand with
      | some y => .ok (amexRest text (if ¬(1900 ≤ y ∧ y ≤ 2099) then some cand else Option.none))
      | Option.none => .error .err
    | Option.none => .ok (amexRest text Option.none)

/-- The function `parse_amex`, over the acquisition outcome. -/
def parse_amex (acq : Except PyExc (List Char)) : Result :=
  match acq.bind parse_amexText with
  | .ok r => r
  | .error _ => amexDefault

/-! ## FirstCitizens (`issuer_parsers/firstcitizens.py`) -/

/-- FirstCitizens `(?:Billing\s+Cycle|Statement\s+Period)` pattern. -/
def fcCycleRE : RE :=
  rcat [.alt (rcat [lw "Billing", wsp, lw "Cycle"]) (rcat [lw "Statement", wsp, lw "Period"]),
        plusC colonSpCls, .group 1 (plusC amexCapCls), starC spCls, .cls dashCls, starC spCls,
        .group 2 (plusC amexCapCls)]

/-- FirstCitizens `(?:Payment\s+Due\s+Date|Due\s+Date)` pattern. -/
def fcDueRE : RE :=
  rcat [.alt (rcat [lw "Payment", wsp, lw "Due", wsp, lw "Date"]) (rcat [lw "Due", wsp, lw "Date"]),
        plusC colonSpCls, .group 1 (plusC dueCapCls)]

/-- FirstCitizens `(?:Minimum\s+Payment|Minimum\s+Due)` pattern. -/
def fcMinRE : RE :=
  rcat [.alt (rcat [lw "Minimum", wsp, lw "Payment"]) (rcat [lw "Minimum", wsp, lw "Due"]),
        plusC colonSpCls, moneyCap glyphRS]

/-- FirstCitizens `(?:New\s+Balance|Total\s+Amount\s+Due|Amount\s+Due)`
pattern. -/
def fcBalRE : RE :=
  rcat [.alt (rcat [lw "New", wsp, lw "Balance"])
             (.alt (rcat [lw "Total", wsp, lw "Amount", wsp, lw "Due"])
                   (rcat [lw "Amount", wsp, lw "Due"])),
        plusC colonSpCls, moneyCap glyphRS]

/-- The all-none FirstCitizens record. -/
def firstcitizensDefault : Result :=
  { issuer := "FirstCitizens", card_last4 := Option.none,
    billing_period := ⟨Option.none, Option.none⟩, payment_due_date := Option.none,
    minimum_due := Option.none, new_balance := Option.none, confidence := 0 }

/-- Everything of the FirstCitizens body after suffix extraction. -/
def fcRest (text : List Char) (last4 : Option (List Char)) : Result :=
  let bp := match searchCap2 true fcCycleRE text with
    | some (a, b) => (normalize_date (some (pyStrip a)), normalize_date (some (pyStrip b)))
    | Option.none => (Option.none, Option.none)
  let due := (searchCap 1 true fcDueRE text).bind (fun c => normalize_date (some (pyStrip c)))
  let mindue := (searchCap 1 true fcMinRE text).bind (fun c => normalize_currency (.str c))
  let newbal := (searchCap 1 true fcBalRE text).bind (fun c => normalize_currency (.str c))
  let r0 : Result :=
    { issuer := "FirstCitizens", card_last4 := last4,
      billing_period := ⟨bp.1, bp.2⟩, payment_due_date := due,
      minimum_due := mindue, new_balance := newbal, confidence := 0 }
  { r0 with confidence := calculate_confidence r0 }

/-- Body of `parse_firstcitizens` on acquired text: shared locator
first, then the account-number fallback, whose candidate is checked
against the year range with a bare `int(...)`. -/
def parse_firstcitizensText (text : List Char) : Except PyExc Result :=
  if text = [] ∨ (pyStrip text).length < 10 then .ok firstcitizensDefault
  else
    let l0 := extract_card_last4 text [sl "Account", sl "Card", sl "Number", sl "FirstCitizens"]
    if strTruthy l0 then .ok (fcRest text l0)
    else
      match searchCap 1 true acctFbRE text with
      | some cand =>
        match pyInt cand with
        | some y => .ok (fcRest text (if ¬(1900 ≤ y ∧ y ≤ 2099) then some cand else l0))
        | Option.none => .error .err
      | Option.none => .ok (fcRest text l0)

/-- The function `parse_firstcitizens`, over the acquisition outcome. -/
def parse_firstcitizens (acq : Except PyExc (List Char)) : Result :=
  match acq.bind parse_firstcitizensText with
  | .ok r => r
  | .error _ => firstcitizensDefault

/-! ## Dispatcher and issuer detection -/

/-- Output of `parse_pdf`: a parser's result record, or the
unsupported-issuer sentinel, a mapping holding exactly the listed keys. -/
inductive PdfOut where
  | res (r : Result)
  | errMap (kvs : List (String × String))
deriving DecidableEq, Repr

/-- The function `parse_pdf` of dispatcher.py, parameterized by the
acquisition oracle `acq` standing for the I/O of the underlying parsers
on the given path. -/
def parse_pdf (acq : String → Except PyExc (List Char)) (path issuer : String) : PdfOut :=
  if issuer = "onecard" then .res (parse_onecard (acq path))
  else if issuer = "buildingblocks" then .res (parse_buildingblocks (acq path))
  else if issuer = "hdfc" then .res (parse_hdfc (acq path))
  else if issuer = "amex" then .res (parse_amex (acq path))
  else if issuer = "firstcitizens" then .res (parse_firstcitizens (acq path))
  else .errMap [("error", "issuer not supported")]

/-- The function `detect_issuer` of detect_issuer.py. -/
def detect_issuer (p : List Char) : String :=
  if strContains (lowerL p) (sl "onecard") then "onecard"
  else if strContains (lowerL p) (sl "buildingblocks") then "buildingblocks"
  else if strContains (lowerL p) (sl "hdfc") then "hdfc"
  else if strContains (lowerL p) (sl "amex") then "amex"
  else if strContains (lowerL p) (sl "firstcitizens") then "firstcitizens"
  else "unknown"

/-! ## Shape of captured fields -/

theorem toNat_ofNat_valid {n : Nat} (h : n < 55296) : (Char.ofNat n).toNat = n := by
  have hv : n.isValidChar := Or.inl h
  simp [Char.ofNat, hv, Char.ofNatAux, Char.toNat, UInt32.toNat, BitVec.toNat_ofNatLt]

theorem lowerc_upper {c : Char} (h : 65 ≤ c.toNat ∧ c.toNat ≤ 90) :
    97 ≤ (lowerc c).toNat ∧ (lowerc c).toNat ≤ 122 := by
  unfold lowerc
  rw [if_pos]
  · rw [toNat_ofNat_valid (by omega)]
    omega
  · simp only [Bool.and_eq_true, decide_eq_true_eq]
    exact ⟨h.1, h.2⟩

theorem cmpc_nonletter {ci : Bool} {a c : Char}
    (ha : ¬(65 ≤ a.toNat ∧ a.toNat ≤ 90)) (hb : ¬(97 ≤ a.toNat ∧ a.toNat ≤ 122)) :
    cmpc ci a c = true → c = a := by
  intro h
  unfold cmpc at h
  cases hci : ci
  · rw [hci] at h
    simp only [Bool.false_eq_true, if_false, decide_eq_true_eq] at h
    exact h.symm
  · rw [hci] at h
    simp only [if_true, decide_eq_true_eq] at h
    rw [lowerc_id ha] at h
    by_cases hc : 65 ≤ c.toNat ∧ c.toNat ≤ 90
    · exfalso
      have h97 := lowerc_upper hc
      rw [← h] at h97
      exact hb h97
    · rw [lowerc_id hc] at h
      exact h.symm

theorem ccMatch_pos {ci : Bool} {items : List CItem} {c : Char}
    (h : ccMatch ci ⟨false, items⟩ c = true) : ∃ it ∈ items, itemMatch ci c it = true := by
  have h' : items.any (itemMatch ci c) = true := by
    simpa [ccMatch] using h
  rw [List.any_eq_true] at h'
  exact h'

theorem ccMatch_dg {ci : Bool} {c : Char} (h : ccMatch ci dgCls c = true) :
    isDigitC c = true := by
  obtain ⟨it, hit, hm⟩ := ccMatch_pos h
  simp only [dgCls, List.mem_singleton] at hit
  subst hit
  exact hm

theorem ccMatch_money {ci : Bool} {c : Char} (h : ccMatch ci moneyCls c = true) :
    isDigitC c = true ∨ c = ',' ∨ c = '.' ∨ isSpaceC c = true := by
  obtain ⟨it, hit, hm⟩ := ccMatch_pos h
  simp only [moneyCls, List.mem_cons, List.not_mem_nil, or_false] at hit
  rcases hit with rfl | rfl | rfl | rfl
  · exact Or.inl hm
  · exact Or.inr (Or.inl (cmpc_nonletter (by decide) (by decide) hm))
  · exact Or.inr (Or.inr (Or.inl (cmpc_nonletter (by decide) (by decide) hm)))
  · exact Or.inr (Or.inr (Or.inr hm))

theorem ccMatch_glyphRS {ci : Bool} {c : Char} (h : ccMatch ci glyphRS c = true) :
    c = '₹' ∨ c = '$' := by
  obtain ⟨it, hit, hm⟩ := ccMatch_pos h
  simp only [glyphRS, List.mem_cons, List.not_mem_nil, or_false] at hit
  rcases hit with rfl | rfl
  · exact Or.inl (cmpc_nonletter (by decide) (by decide) hm)
  · exact Or.inr (cmpc_nonletter (by decide) (by decide) hm)

theorem ccMatch_glyphSR {ci : Bool} {c : Char} (h : ccMatch ci glyphSR c = true) :
    c = '₹' ∨ c = '$' := by
  obtain ⟨it, hit, hm⟩ := ccMatch_pos h
  simp only [glyphSR, List.mem_cons, List.not_mem_nil, or_false] at hit
  rcases hit with rfl | rfl
  · exact Or.inr (cmpc_nonletter (by decide) (by decide) hm)
  · exact Or.inl (cmpc_nonletter (by decide) (by decide) hm)

/-- The capture body of every card-suffix group. -/
def d4Body : RE := RE.reps 4 (some 4) false dgCls

theorem MB_d4Body {ci : Bool} {s : List Char} (h : MB ci d4Body s) :
    s.length = 4 ∧ ∀ c ∈ s, isDigitC c = true := by
  unfold d4Body at h
  cases h with
  | reps h1 h2 h3 =>
    have h2' : s.length ≤ 4 := h2
    refine ⟨by omega, ?_⟩
    intro c hc
    exact ccMatch_dg (h3 c hc)

theorem MB_money {ci : Bool} {g : CClass} {s : List Char}
    (hg : ∀ x : Char, ccMatch ci g x = true → x = '₹' ∨ x = '$')
    (h : MB ci (RE.cat (optC g) (plusC moneyCls)) s) :
    ∀ c ∈ s, c = '₹' ∨ c = '$' ∨ isDigitC c = true ∨ c = ',' ∨ c = '.' ∨ isSpaceC c = true := by
  cases h with
  | cat h1 h2 =>
    intro c hc
    rcases List.mem_append.mp hc with hm | hm
    · unfold optC at h1
      cases h1 with
      | reps _ _ h3 =>
        rcases hg c (h3 c hm) with h | h
        · exact Or.inl h
        · exact Or.inr (Or.inl h)
    · unfold plusC at h2
      cases h2 with
      | reps _ _ h3 =>
        rcases ccMatch_money (h3 c hm) with h | h | h | h <;> tauto

theorem groupsOf_strRE (w : List Char) : groupsOf (strRE w) = [] := by
  induction w with
  | nil => rfl
  | cons c t ih =>
    show groupsOf (.cat (.lit c) (strRE t)) = []
    rw [show groupsOf (RE.cat (.lit c) (strRE t)) = groupsOf (.lit c) ++ groupsOf (strRE t)
      from rfl, ih]
    rfl

theorem searchCap_shape {g : Nat} {ci : Bool} {re : RE} {t s : List Char}
    (h : searchCap g ci re t = some s) : ∃ b, (g, b) ∈ groupsOf re ∧ MB ci b s := by
  unfold searchCap at h
  split at h
  · rename_i r hs
    exact searchAux_caps ci re t Option.none 0 r hs (g, s) (capLookup_mem h)
  · simp at h

theorem groupsOf_masked : groupsOf maskedRE = [(1, d4Body)] := rfl

theorem groupsOf_p2RE (kw : List Char) : groupsOf (p2RE kw) = [(1, d4Body)] := by
  show groupsOf (.cat (strRE kw) _) = _
  rw [show ∀ a b : RE, groupsOf (RE.cat a b) = groupsOf a ++ groupsOf b from fun a b => rfl]
  rw [groupsOf_strRE]
  rfl

theorem groupsOf_d4RE : groupsOf d4RE = [(1, d4Body)] := rfl

theorem groupsOf_ocCardFbRE : groupsOf ocCardFbRE = [(1, d4Body)] := rfl

theorem groupsOf_acctFbRE : groupsOf acctFbRE = [(1, d4Body)] := rfl

theorem groupsOf_amexCardRE : groupsOf amexCardRE = [(1, d4Body)] := rfl

/-- A capture from a pattern whose only group is a card-suffix group is
exactly four digits. -/
theorem searchCap_d4 {ci : Bool} {re : RE} {t s : List Char}
    (hre : groupsOf re = [(1, d4Body)]) (h : searchCap 1 ci re t = some s) :
    s.length = 4 ∧ ∀ c ∈ s, isDigitC c = true := by
  obtain ⟨b, hb, hmb⟩ := searchCap_shape h
  rw [hre, List.mem_singleton] at hb
  have hbb : b = d4Body := congrArg Prod.snd hb
  subst hbb
  exact MB_d4Body hmb

theorem normalize_currency_money {s : List Char}
    (hs : ∀ c ∈ s, c = '₹' ∨ c = '$' ∨ isDigitC c = true ∨ c = ',' ∨ c = '.' ∨ isSpaceC c = true)
    {v : PyNum} (h : normalize_currency (.str s) = some v) : ∃ q, v = .fin q ∧ 0 ≤ q := by
  unfold normalize_currency at h
  simp only [] at h
  split at h
  · simp at h
  · refine pyFloat_digitdot ?_ h
    intro c hc
    rw [List.mem_filter] at hc
    obtain ⟨hcs, hcj⟩ := hc
    rcases hs c hcs with hx | hx | hx | hx | hx | hx
    · subst hx; exact absurd hcj (by decide)
    · subst hx; exact absurd hcj (by decide)
    · exact Or.inl hx
    · subst hx; exact absurd hcj (by decide)
    · exact Or.inr hx
    · exfalso
      have : isCurrencyJunk c = true := by
        unfold isCurrencyJunk
        rw [hx]
        simp
      rw [this] at hcj
      exact absurd hcj (by decide)

/-- A currency field extracted by a money pattern is a non-negative
finite value whenever it is present. -/
theorem bindCur_good {reM : RE} {g : CClass}
    (hre : groupsOf reM = [(1, RE.cat (optC g) (plusC moneyCls))])
    (hg : ∀ x : Char, ccMatch true g x = true → x = '₹' ∨ x = '$')
    {t : List Char} {v : PyNum}
    (h : (searchCap 1 true reM t).bind (fun c => normalize_currency (.str c)) = some v) :
    ∃ q, v = .fin q ∧ 0 ≤ q := by
  rw [Option.bind_eq_some] at h
  obtain ⟨cap, hcap, hv⟩ := h
  obtain ⟨b, hb, hmb⟩ := searchCap_shape hcap
  rw [hre, List.mem_singleton] at hb
  have hbb : b = RE.cat (optC g) (plusC moneyCls) := congrArg Prod.snd hb
  subst hbb
  exact normalize_currency_money (MB_money hg hmb) hv

/-- The invariant a returned card suffix satisfies: exactly four ASCII
digits whose value is not a plausible year. -/
def goodLast4 (s : List Char) : Prop :=
  s.length = 4 ∧ (∀ c ∈ s, isDigitC c = true) ∧
    ¬(1900 ≤ digitsToNat s ∧ digitsToNat s ≤ 2099)

theorem year_check {s : List Char} (hd : ∀ c ∈ s, isDigitC c = true) (hne : s ≠ [])
    {y : Int} (hy : pyInt s = some y) (hc : ¬(1900 ≤ y ∧ y ≤ 2099)) :
    ¬(1900 ≤ digitsToNat s ∧ digitsToNat s ≤ 2099) := by
  rw [pyInt_digits hne hd, Option.some.injEq] at hy
  subst hy
  rintro ⟨a, b⟩
  exact hc ⟨by exact_mod_cast a, by exact_mod_cast b⟩

theorem caps_d4_of {re : RE} {ci : Bool} {ks : Caps} {s : List Char}
    (hok : capsOK ci re ks) (hre : groupsOf re = [(1, d4Body)])
    (hl : capLookup 1 ks = some s) :
    s.length = 4 ∧ ∀ c ∈ s, isDigitC c = true := by
  obtain ⟨b, hb, hmb⟩ := hok (1, s) (capLookup_mem hl)
  rw [hre, List.mem_singleton] at hb
  have hbb : b = d4Body := congrArg Prod.snd hb
  subst hbb
  exact MB_d4Body hmb

theorem len4_ne_nil {s : List Char} (h : s.length = 4) : s ≠ [] := by
  intro he
  rw [he] at h
  simp at h

theorem p2Scan_good (kw : List Char) (t : List Char) :
    ∀ (ms : List (Nat × Nat × Caps)), (∀ trip ∈ ms, capsOK true (p2RE kw) trip.2.2) →
      ∀ s, p2Scan t ms = some s → goodLast4 s := by
  intro ms
  induction ms with
  | nil => intro _ s h; simp [p2Scan] at h
  | cons trip rest ih =>
    intro hok s h
    obtain ⟨ts, te, tcaps⟩ := trip
    unfold p2Scan at h
    split at h
    · rename_i l4 hl
      split at h
      · rename_i y hy
        split at h
        case isTrue hyear =>
          split at h
          case isTrue hctx =>
            rw [Option.some.injEq] at h
            subst h
            obtain ⟨hlen, hd⟩ := caps_d4_of (hok (ts, te, tcaps) (List.mem_cons_self _ _))
              (groupsOf_p2RE kw) hl
            exact ⟨hlen, hd, year_check hd (len4_ne_nil hlen) hy hyear⟩
          case isFalse hctx => exact ih (fun p hp => hok p (List.mem_cons_of_mem _ hp)) s h
        case isFalse hyear => exact ih (fun p hp => hok p (List.mem_cons_of_mem _ hp)) s h
      · exact ih (fun p hp => hok p (List.mem_cons_of_mem _ hp)) s h
    · exact ih (fun p hp => hok p (List.mem_cons_of_mem _ hp)) s h

theorem p2Loop_good (t : List Char) :
    ∀ (kws : List (List Char)) (s : List Char), p2Loop t kws = some s → goodLast4 s := by
  intro kws
  induction kws with
  | nil => intro s h; simp [p2Loop] at h
  | cons kw rest ih =>
    intro s h
    unfold p2Loop at h
    split at h
    · rename_i l4 hscan
      rw [Option.some.injEq] at h
      subst h
      refine p2Scan_good kw t _ ?_ _ hscan
      intro trip htrip
      rw [List.mem_reverse] at htrip
      exact findIterAux_caps true (p2RE kw) (t.length + 1) Option.none 0 t trip htrip
    · exact ih s h

theorem p3Scan_good : ∀ (lines : List (List Char)) (s : List Char),
    p3Scan lines = some s → goodLast4 s := by
  intro lines
  induction lines with
  | nil => intro s h; simp [p3Scan] at h
  | cons line rest ih =>
    intro s h
    unfold p3Scan at h
    split at h
    · split at h
      · rename_i r hs
        split at h
        · rename_i l4 hl
          split at h
          · rename_i y hy
            split at h
            case isTrue hyear =>
              rw [Option.some.injEq] at h
              subst h
              obtain ⟨hlen, hd⟩ := caps_d4_of
                (searchAux_caps false d4RE line Option.none 0 r hs) groupsOf_d4RE hl
              exact ⟨hlen, hd, year_check hd (len4_ne_nil hlen) hy hyear⟩
            case isFalse hyear => exact ih s h
          · exact ih s h
        · exact ih s h
      · exact ih s h
    · exact ih s h

theorem extractTail_good {text : List Char} {kws : List (List Char)} {s : List Char}
    (h : extractTail text kws = some s) : goodLast4 s := by
  unfold extractTail at h
  split at h
  · rename_i l4 hp2
    rw [Option.some.injEq] at h
    subst h
    exact p2Loop_good text kws _ hp2
  · exact p3Scan_good _ s h

/-- Every suffix returned by the shared locator is four non-year digits. -/
theorem extract_card_last4_good {text : List Char} {kws : List (List Char)} {s : List Char}
    (h : extract_card_last4 text kws = some s) : goodLast4 s := by
  unfold extract_card_last4 at h
  split at h
  · simp at h
  · split at h
    · rename_i r hs
      split at h
      · rename_i l4 hl
        split at h
        · rename_i y hy
          split at h
          case isTrue hyear =>
            rw [Option.some.injEq] at h
            subst h
            obtain ⟨hlen, hd⟩ := caps_d4_of
              (searchAux_caps true maskedRE text Option.none 0 r hs) groupsOf_masked hl
            exact ⟨hlen, hd, year_check hd (len4_ne_nil hlen) hy hyear⟩
          case isFalse hyear => exact extractTail_good h
        · rename_i hynone
          rw [Option.some.injEq] at h
          subst h
          obtain ⟨hlen, hd⟩ := caps_d4_of
            (searchAux_caps true maskedRE text Option.none 0 r hs) groupsOf_masked hl
          rw [pyInt_digits (len4_ne_nil hlen) hd] at hynone
          exact absurd hynone (by simp)
      · exact extractTail_good h
    · exact extractTail_good h

/-! ## Field projections of the parser bodies -/

theorem ocRest_min (t : List Char) : (ocRest t).minimum_due =
    (searchCap 1 true ocMinRE t).bind (fun c => normalize_currency (.str c)) := rfl

theorem ocRest_bal (t : List Char) : (ocRest t).new_balance =
    (searchCap 1 true ocBalRE t).bind (fun c => normalize_currency (.str c)) := rfl

theorem bbRest_min (t : List Char) : (bbRest t).minimum_due =
    (searchCap 1 true bbMinRE t).bind (fun c => normalize_currency (.str c)) := rfl

theorem bbRest_bal (t : List Char) : (bbRest t).new_balance =
    (match searchCap 1 true bbBalRE t with
     | some c => normalize_currency (.str c)
     | Option.none => (searchCap 1 true bbBalFbRE t).bind (fun c => normalize_currency (.str c))) :=
  rfl

theorem hdfcRest_card (t : List Char) (lm : Option (List Char)) : (hdfcRest t lm).card_last4 =
    (if strTruthy lm then lm
     else extract_card_last4 t [sl "Card", sl "Account", sl "HDFC", sl "XXXX"]) := rfl

theorem hdfcRest_min (t : List Char) (lm : Option (List Char)) : (hdfcRest t lm).minimum_due =
    (searchCap 1 true hdfcMinRE t).bind (fun c => normalize_currency (.str c)) := rfl

theorem hdfcRest_bal (t : List Char) (lm : Option (List Char)) : (hdfcRest t lm).new_balance =
    (searchCap 1 true hdfcBalRE t).bind (fun c => normalize_currency (.str c)) := rfl

theorem amexRest_card (t : List Char) (lm : Option (List Char)) : (amexRest t lm).card_last4 =
    (if strTruthy lm then lm
     else extract_card_last4 t [sl "Card", sl "AMEX", sl "American Express", sl "Ending"]) := rfl

theorem amexRest_min (t : List Char) (lm : Option (List Char)) : (amexRest t lm).minimum_due =
    (searchCap 1 true amexMinRE t).bind (fun c => normalize_currency (.str c)) := rfl

theorem amexRest_bal (t : List Char) (lm : Option (List Char)) : (amexRest t lm).new_balance =
    (match searchCap 1 true amexBalRE t with
     | some c => normalize_currency (.str c)
     | Option.none => (searchCap 1 true amexBalFbRE t).bind (fun c => normalize_currency (.str c))) :=
  rfl

theorem fcRest_card (t : List Char) (lm : Option (List Char)) :
    (fcRest t lm).card_last4 = lm := rfl

theorem fcRest_min (t : List Char) (lm : Option (List Char)) : (fcRest t lm).minimum_due =
    (searchCap 1 true fcMinRE t).bind (fun c => normalize_currency (.str c)) := rfl

theorem fcRest_bal (t : List Char) (lm : Option (List Char)) : (fcRest t lm).new_balance =
    (searchCap 1 true fcBalRE t).bind (fun c => normalize_currency (.str c)) := rfl

/-- Field views of a parser body outcome (none when the body raised). -/
def okCard (e : Except PyExc Result) : Option (List Char) :=
  match e with
  | .ok r => r.card_last4
  | .error _ => Option.none

def okMin (e : Except PyExc Result) : Option PyNum :=
  match e with
  | .ok r => r.minimum_due
  | .error _ => Option.none

def okBal (e : Except PyExc Result) : Option PyNum :=
  match e with
  | .ok r => r.new_balance
  | .error _ => Option.none

theorem hdfc_card_good {t s : List Char} (h : okCard (parse_hdfcText t) = some s) :
    goodLast4 s := by
  unfold parse_hdfcText at h
  split at h
  · simp [okCard, hdfcDefault] at h
  · split at h
    · rename_i cand hcand
      split at h
      · rename_i y hy
        simp only [okCard] at h
        rw [hdfcRest_card] at h
        split at h
        case isTrue hyear =>
          split at h
          case isTrue htr =>
            rw [Option.some.injEq] at h
            subst h
            obtain ⟨hlen, hd⟩ := searchCap_d4 groupsOf_masked hcand
            exact ⟨hlen, hd, year_check hd (len4_ne_nil hlen) hy hyear⟩
          case isFalse htr => exact extract_card_last4_good h
        case isFalse hyear =>
          split at h
          case isTrue htr => exact absurd htr (by decide)
          case isFalse htr => exact extract_card_last4_good h
      · simp [okCard] at h
    · simp only [okCard] at h
      rw [hdfcRest_card] at h
      rw [if_neg (by decide)] at h
      exact extract_card_last4_good h

theorem amex_card_good {t s : List Char} (h : okCard (parse_amexText t) = some s) :
    goodLast4 s := by
  unfold parse_amexText at h
  split at h
  · simp [okCard, amexDefault] at h
  · split at h
    · rename_i cand hcand
      split at h
      · rename_i y hy
        simp only [okCard] at h
        rw [amexRest_card] at h
        split at h
        case isTrue hyear =>
          split at h
          case isTrue htr =>
            rw [Option.some.injEq] at h
            subst h
            obtain ⟨hlen, hd⟩ := searchCap_d4 groupsOf_amexCardRE hcand
            exact ⟨hlen, hd, year_check hd (len4_ne_nil hlen) hy hyear⟩
          case isFalse htr => exact extract_card_last4_good h
        case isFalse hyear =>
          split at h
          case isTrue htr => exact absurd htr (by decide)
          case isFalse htr => exact extract_card_last4_good h
      · simp [okCard] at h
    · simp only [okCard] at h
      rw [amexRest_card] at h
      rw [if_neg (by decide)] at h
      exact extract_card_last4_good h

theorem fc_card_good {t s : List Char} (h : okCard (parse_firstcitizensText t) = some s) :
    goodLast4 s := by
  unfold parse_firstcitizensText at h
  split at h
  · simp [okCard, firstcitizensDefault] at h
  · simp only [] at h
    split at h
    case isTrue htr =>
      simp only [okCard] at h
      rw [fcRest_card] at h
      exact extract_card_last4_good h
    case isFalse htr =>
      split at h
      · rename_i cand hcand
        split at h
        · rename_i y hy
          simp only [okCard] at h
          rw [fcRest_card] at h
          split at h
          case isTrue hyear =>
            rw [Option.some.injEq] at h
            subst h
            obtain ⟨hlen, hd⟩ := searchCap_d4 groupsOf_acctFbRE hcand
            exact ⟨hlen, hd, year_check hd (len4_ne_nil hlen) hy hyear⟩
          case isFalse hyear => exact extract_card_last4_good h
        · simp [okCard] at h
      · simp only [okCard] at h
        rw [fcRest_card] at h
        exact extract_card_last4_good h

theorem groupsOf_ocMinRE : groupsOf ocMinRE = [(1, RE.cat (optC glyphRS) (plusC moneyCls))] := rfl

theorem groupsOf_ocBalRE : groupsOf ocBalRE = [(1, RE.cat (optC glyphRS) (plusC moneyCls))] := rfl

theorem groupsOf_bbMinRE : groupsOf bbMinRE = [(1, RE.cat (optC glyphSR) (plusC moneyCls))] := rfl

theorem groupsOf_bbBalRE : groupsOf bbBalRE = [(1, RE.cat (optC glyphSR) (plusC moneyCls))] := rfl

theorem groupsOf_bbBalFbRE :
    groupsOf bbBalFbRE = [(1, RE.cat (optC glyphSR) (plusC moneyCls))] := rfl

theorem groupsOf_hdfcMinRE :
    groupsOf hdfcMinRE = [(1, RE.cat (optC glyphRS) (plusC moneyCls))] := rfl

theorem groupsOf_hdfcBalRE :
    groupsOf hdfcBalRE = [(1, RE.cat (optC glyphRS) (plusC moneyCls))] := rfl

theorem groupsOf_amexMinRE :
    groupsOf amexMinRE = [(1, RE.cat (optC glyphRS) (plusC moneyCls))] := rfl

theorem groupsOf_amexBalRE :
    groupsOf amexBalRE = [(1, RE.cat (optC glyphRS) (plusC moneyCls))] := rfl

theorem groupsOf_amexBalFbRE :
    groupsOf amexBalFbRE = [(1, RE.cat (optC glyphRS) (plusC moneyCls))] := rfl

theorem groupsOf_fcMinRE : groupsOf fcMinRE = [(1, RE.cat (optC glyphRS) (plusC moneyCls))] := rfl

theorem groupsOf_fcBalRE : groupsOf fcBalRE = [(1, RE.cat (optC glyphRS) (plusC moneyCls))] := rfl

theorem oc_min_good {t : List Char} {v : PyNum} (h : okMin (parse_onecardText t) = some v) :
    ∃ q, v = .fin q ∧ 0 ≤ q := by
  unfold parse_onecardText at h
  split at h
  · simp [okMin, onecardDefault] at h
  · simp only [okMin] at h
    rw [ocRest_min] at h
    exact bindCur_good groupsOf_ocMinRE (fun x hx => ccMatch_glyphRS hx) h

theorem oc_bal_good {t : List Char} {v : PyNum} (h : okBal (parse_onecardText t) = some v) :
    ∃ q, v = .fin q ∧ 0 ≤ q := by
  unfold parse_onecardText at h
  split at h
  · simp [okBal, onecardDefault] at h
  · simp only [okBal] at h
    rw [ocRest_bal] at h
    exact bindCur_good groupsOf_ocBalRE (fun x hx => ccMatch_glyphRS hx) h

theorem bb_min_good {t : List Char} {v : PyNum} (h : okMin (parse_buildingblocksText t) = some v) :
    ∃ q, v = .fin q ∧ 0 ≤ q := by
  unfold parse_buildingblocksText at h
  split at h
  · simp [okMin, buildingblocksDefault] at h
  · simp only [okMin] at h
    rw [bbRest_min] at h
    exact bindCur_good groupsOf_bbMinRE (fun x hx => ccMatch_glyphSR hx) h

theorem bb_bal_good {t : List Char} {v : PyNum} (h : okBal (parse_buildingblocksText t) = some v) :
    ∃ q, v = .fin q ∧ 0 ≤ q := by
  unfold parse_buildingblocksText at h
  split at h
  · simp [okBal, buildingblocksDefault] at h
  · simp only [okBal] at h
    rw [bbRest_bal] at h
    split at h
    · rename_i c hc
      exact bindCur_good groupsOf_bbBalRE (fun x hx => ccMatch_glyphSR hx) (by rw [hc]; simpa using h)
    · exact bindCur_good groupsOf_bbBalFbRE (fun x hx => ccMatch_glyphSR hx) h

theorem hdfc_min_good {t : List Char} {v : PyNum} (h : okMin (parse_hdfcText t) = some v) :
    ∃ q, v = .fin q ∧ 0 ≤ q := by
  unfold parse_hdfcText at h
  split at h
  · simp [okMin, hdfcDefault] at h
  · split at h
    · split at h
      · simp only [okMin] at h
        rw [hdfcRest_min] at h
        exact bindCur_good groupsOf_hdfcMinRE (fun x hx => ccMatch_glyphRS hx) h
      · simp [okMin] at h
    · simp only [okMin] at h
      rw [hdfcRest_min] at h
      exact bindCur_good groupsOf_hdfcMinRE (fun x hx => ccMatch_glyphRS hx) h

theorem hdfc_bal_good {t : List Char} {v : PyNum} (h : okBal (parse_hdfcText t) = some v) :
    ∃ q, v = .fin q ∧ 0 ≤ q := by
  unfold parse_hdfcText at h
  split at h
  · simp [okBal, hdfcDefault] at h
  · split at h
    · split at h
      · simp only [okBal] at h
        rw [hdfcRest_bal] at h
        exact bindCur_good groupsOf_hdfcBalRE (fun x hx => ccMatch_glyphRS hx) h
      · simp [okBal] at h
    · simp only [okBal] at h
      rw [hdfcRest_bal] at h
      exact bindCur_good groupsOf_hdfcBalRE (fun x hx => ccMatch_glyphRS hx) h

theorem amex_min_good {t : List Char} {v : PyNum} (h : okMin (parse_amexText t) = some v) :
    ∃ q, v = .fin q ∧ 0 ≤ q := by
  unfold parse_amexText at h
  split at h
  · simp [okMin, amexDefault] at h
  · split at h
    · split at h
      · simp only [okMin] at h
        rw [amexRest_min] at h
        exact bindCur_good groupsOf_amexMinRE (fun x hx => ccMatch_glyphRS hx) h
      · simp [okMin] at h
    · simp only [okMin] at h
      rw [amexRest_min] at h
      exact bindCur_good groupsOf_amexMinRE (fun x hx => ccMatch_glyphRS hx) h

theorem amex_bal_good {t : List Char} {v : PyNum} (h : okBal (parse_amexText t) = some v) :
    ∃ q, v = .fin q ∧ 0 ≤ q := by
  unfold parse_amexText at h
  split at h
  · simp [okBal, amexDefault] at h
  · split at h
    · split at h
      · simp only [okBal] at h
        rw [amexRest_bal] at h
        split at h
        · rename_i c hc
          exact bindCur_good groupsOf_amexBalRE (fun x hx => ccMatch_glyphRS hx) (by rw [hc]; simpa using h)
        · exact bindCur_good groupsOf_amexBalFbRE (fun x hx => ccMatch_glyphRS hx) h
      · simp [okBal] at h
    · simp only [okBal] at h
      rw [amexRest_bal] at h
      split at h
      · rename_i c hc
        exact bindCur_good groupsOf_amexBalRE (fun x hx => ccMatch_glyphRS hx) (by rw [hc]; simpa using h)
      · exact bindCur_good groupsOf_amexBalFbRE (fun x hx => ccMatch_glyphRS hx) h

theorem fc_min_good {t : List Char} {v : PyNum} (h : okMin (parse_firstcitizensText t) = some v) :
    ∃ q, v = .fin q ∧ 0 ≤ q := by
  unfold parse_firstcitizensText at h
  split at h
  · simp [okMin, firstcitizensDefault] at h
  · simp only [] at h
    split at h
    · simp only [okMin] at h
      rw [fcRest_min] at h
      exact bindCur_good groupsOf_fcMinRE (fun x hx => ccMatch_glyphRS hx) h
    · split at h
      · split at h
        · simp only [okMin] at h
          rw [fcRest_min] at h
          exact bindCur_good groupsOf_fcMinRE (fun x hx => ccMatch_glyphRS hx) h
        · simp [okMin] at h
      · simp only [okMin] at h
        rw [fcRest_min] at h
        exact bindCur_good groupsOf_fcMinRE (fun x hx => ccMatch_glyphRS hx) h

theorem fc_bal_good {t : List Char} {v : PyNum} (h : okBal (parse_firstcitizensText t) = some v) :
    ∃ q, v = .fin q ∧ 0 ≤ q := by
  unfold parse_firstcitizensText at h
  split at h
  · simp [okBal, firstcitizensDefault] at h
  · simp only [] at h
    split at h
    · simp only [okBal] at h
      rw [fcRest_bal] at h
      exact bindCur_good groupsOf_fcBalRE (fun x hx => ccMatch_glyphRS hx) h
    · split at h
      · split at h
        · simp only [okBal] at h
          rw [fcRest_bal] at h
          exact bindCur_good groupsOf_fcBalRE (fun x hx => ccMatch_glyphRS hx) h
        · simp [okBal] at h
      · simp only [okBal] at h
        rw [fcRest_bal] at h
        exact bindCur_good groupsOf_fcBalRE (fun x hx => ccMatch_glyphRS hx) h

/-! ## Lifting field facts through the outer try/except wrappers -/

/-- Every present field of a wrapper's result comes from an `.ok` run of
the parser body on some acquired text (the error and default paths leave
the field `none`). -/
theorem wrapLift {α : Type} (f : Result → Option α)
    (pt : List Char → Except PyExc Result) (dflt : Result)
    (hd : f dflt = Option.none) (acq : Except PyExc (List Char)) (x : α)
    (h : f (match acq.bind pt with | .ok r => r | .error _ => dflt) = some x) :
    ∃ t r, pt t = .ok r ∧ f r = some x := by
  cases acq with
  | error e =>
    have h' : f dflt = some x := h
    rw [hd] at h'
    exact absurd h' (by simp)
  | ok t =>
    have h' : f (match pt t with | .ok r => r | .error _ => dflt) = some x := h
    cases he : pt t with
    | ok r =>
      rw [he] at h'
      exact ⟨t, r, he, h'⟩
    | error e =>
      rw [he] at h'
      rw [hd] at h'
      exact absurd h' (by simp)

/-! ## C1: card suffixes are four digits and never year-like -/

/-- C1 (corrected): a card suffix produced by the shared helper
`extract_card_last4`, or returned by `parse_hdfc`, `parse_amex` or
`parse_firstcitizens`, is exactly 4 ASCII digits whose integer value
does not lie in [1900, 2099].  (The original claim extended this to all
five parsers, but the issuer-specific fallback patterns of
`parse_onecard` and `parse_buildingblocks` perform no year check, see
the counterexample.) -/
theorem c1_card_suffix_not_year (text : List Char) (kws : List (List Char)) (s : List Char)
    (acq1 acq2 acq3 : Except PyExc (List Char)) (s1 s2 s3 : List Char)
    (h0 : extract_card_last4 text kws = some s)
    (h1 : (parse_hdfc acq1).card_last4 = some s1)
    (h2 : (parse_amex acq2).card_last4 = some s2)
    (h3 : (parse_firstcitizens acq3).card_last4 = some s3) :
    goodLast4 s ∧ goodLast4 s1 ∧ goodLast4 s2 ∧ goodLast4 s3 := by
  refine ⟨extract_card_last4_good h0, ?_, ?_, ?_⟩
  · unfold parse_hdfc at h1
    obtain ⟨t, r, hok, hf⟩ := wrapLift Result.card_last4 parse_hdfcText hdfcDefault rfl acq1 s1 h1
    exact hdfc_card_good (show okCard (parse_hdfcText t) = some s1 by rw [hok]; exact hf)
  · unfold parse_amex at h2
    obtain ⟨t, r, hok, hf⟩ := wrapLift Result.card_last4 parse_amexText amexDefault rfl acq2 s2 h2
    exact amex_card_good (show okCard (parse_amexText t) = some s2 by rw [hok]; exact hf)
  · unfold parse_firstcitizens at h3
    obtain ⟨t, r, hok, hf⟩ :=
      wrapLift Result.card_last4 parse_firstcitizensText firstcitizensDefault rfl acq3 s3 h3
    exact fc_card_good (show okCard (parse_firstcitizensText t) = some s3 by rw [hok]; exact hf)

/-- C1 counterexample: on concrete documents the OneCard and
BuildingBlocks parsers return the year-like suffixes "2025" and "1955"
through their unchecked fallback patterns, refuting the original claim
for those two parsers. -/
theorem c1_counterexample :
    (parse_onecard (.ok (sl "OneCard Number: 2025 a"))).card_last4 = some (sl "2025") ∧
    (parse_buildingblocks (.ok (sl "Account Number: 1955 ab"))).card_last4 = some (sl "1955") ∧
    (sl "2025").length = 4 ∧ (∀ c ∈ sl "2025", isDigitC c = true) ∧
    (1900 ≤ digitsToNat (sl "2025") ∧ digitsToNat (sl "2025") ≤ 2099) ∧
    (sl "1955").length = 4 ∧ (∀ c ∈ sl "1955", isDigitC c = true) ∧
    (1900 ≤ digitsToNat (sl "1955") ∧ digitsToNat (sl "1955") ≤ 2099) := by
  refine ⟨by decide, by decide, by decide, by decide, by decide, by decide, by decide, by decide⟩

/-- Witness for C1 at concrete inputs. -/
theorem c1_card_suffix_not_year_witness :
    goodLast4 (sl "6789") ∧ goodLast4 (sl "1234") ∧ goodLast4 (sl "4321") ∧
    goodLast4 (sl "5678") :=
  c1_card_suffix_not_year (sl "Account Number: 6789") [sl "Account"] (sl "6789")
    (.ok (sl "XXXX XXXX XXXX 1234 hello")) (.ok (sl "Card Ending in 4321 hello"))
    (.ok (sl "Account Number: 5678 ok")) (sl "1234") (sl "4321") (sl "5678")
    (by decide) (by decide) (by decide) (by decide)

/-! ## C2/C3: the confidence score -/

/-- Python truthiness of an optional string agrees with presence as soon
as the string is not the empty string (the only falsy present value). -/
theorem strTruthy_eq_isSome {o : Option (List Char)} (h : o ≠ some []) :
    strTruthy o = o.isSome := by
  cases o with
  | none => rfl
  | some s =>
    cases s with
    | nil => exact absurd rfl h
    | cons c t => rfl

/-- Modelled from the spec: the point total described for the confidence
score — 1.0 for each present field among the card suffix, the billing
period (both ends required), the due date and the new balance, plus 0.5
for a present minimum due. -/
def specPoints (r : Result) : ℚ :=
  (if r.card_last4.isSome then 1 else 0)
    + (if r.billing_period.pstart.isSome ∧ r.billing_period.pend.isSome then 1 else 0)
    + (if r.payment_due_date.isSome then 1 else 0)
    + (if r.new_balance.isSome then 1 else 0)
    + (if r.minimum_due.isSome then (1 / 2 : ℚ) else 0)

/-- The score of the source equals the spec's point total whenever the
billing-period strings are not the empty string (Python truthiness and
presence then coincide). -/
theorem confidence_eq_points (r : Result)
    (hs : r.billing_period.pstart ≠ some []) (he : r.billing_period.pend ≠ some []) :
    calculate_confidence r = round2 (specPoints r / (4 + 1 / 2)) := by
  unfold calculate_confidence
  simp only []
  rw [if_pos (by norm_num : (4 + 1 / 2 : ℚ) > 0)]
  congr 2
  unfold specPoints
  rw [strTruthy_eq_isSome hs, strTruthy_eq_isSome he]
  by_cases h1 : r.billing_period.pstart.isSome = true <;>
    by_cases h2 : r.billing_period.pend.isSome = true <;>
    simp [h1, h2]

/-- C2 (confirmed): for every record whose billing-period entries are
not the empty string, `calculate_confidence` returns exactly the point
total — 1.0 each for present card suffix, billing period (both ends
present), due date and balance, plus 0.5 for a present minimum due —
divided by the fixed maximum 4.5 and rounded to two decimal places. -/
theorem c2_confidence_formula (r : Result)
    (hs : r.billing_period.pstart ≠ some []) (he : r.billing_period.pend ≠ some []) :
    calculate_confidence r = round2 (specPoints r / (4.5 : ℚ)) := by
  rw [confidence_eq_points r hs he]
  norm_num

/-- A concrete record for the confidence-formula witness. -/
def c2r : Result :=
  { issuer := "OneCard", card_last4 := some (sl "1234"),
    billing_period := ⟨some (sl "2025-01-01"), Option.none⟩,
    payment_due_date := Option.none, minimum_due := some (.fin 50),
    new_balance := Option.none, confidence := 0 }

/-- Witness for C2 at a concrete record. -/
theorem c2_confidence_formula_witness :
    calculate_confidence c2r = round2 (specPoints c2r / (4.5 : ℚ)) :=
  c2_confidence_formula c2r (by decide) (by decide)

/-- The confidence value as a function of the five presence booleans. -/
def confOf (b1 b2 b3 b4 b5 : Bool) : ℚ :=
  round2 (((if b1 then (1 : ℚ) else 0) + (if b2 then 1 else 0) + (if b3 then 1 else 0)
      + (if b4 then 1 else 0) + (if b5 then (1 / 2 : ℚ) else 0)) / (4 + 1 / 2))

/-- `calculate_confidence` factors through the five presence booleans
when the billing-period strings are not empty. -/
theorem confidence_eq_confOf (r : Result)
    (hs : r.billing_period.pstart ≠ some []) (he : r.billing_period.pend ≠ some []) :
    calculate_confidence r =
      confOf r.card_last4.isSome
        (r.billing_period.pstart.isSome && r.billing_period.pend.isSome)
        r.payment_due_date.isSome r.new_balance.isSome r.minimum_due.isSome := by
  unfold calculate_confidence confOf
  simp only []
  rw [strTruthy_eq_isSome hs, strTruthy_eq_isSome he]
  rw [if_pos (by norm_num : (4 + 1 / 2 : ℚ) > 0)]

/-- The confidence is between 0 and 1 for every combination of the
presence booleans. -/
theorem confOf_range (b1 b2 b3 b4 b5 : Bool) :
    0 ≤ confOf b1 b2 b3 b4 b5 ∧ confOf b1 b2 b3 b4 b5 ≤ 1 := by
  cases b1 <;> cases b2 <;> cases b3 <;> cases b4 <;> cases b5 <;>
    constructor <;> norm_num [confOf, round2]

/-- The confidence is zero exactly when all five presence booleans are
false. -/
theorem confOf_zero (b1 b2 b3 b4 b5 : Bool) :
    confOf b1 b2 b3 b4 b5 = 0 ↔
      b1 = false ∧ b2 = false ∧ b3 = false ∧ b4 = false ∧ b5 = false := by
  cases b1 <;> cases b2 <;> cases b3 <;> cases b4 <;> cases b5 <;>
    norm_num [confOf, round2]

/-- An option is not `isSome` exactly when it is `none`. -/
theorem isSome_false_iff {α : Type} {o : Option α} : o.isSome = false ↔ o = Option.none := by
  cases o <;> simp

/-- C3 (corrected): for every record whose billing-period entries are
not the empty string, the confidence lies in [0, 1]; it is 0 exactly
when the card suffix, the billing period (both ends), the due date, the
balance AND the minimum due are all absent.  (The original claim's
`iff` omitted the minimum due: a record with only `minimum_due` present
has all four named fields absent yet confidence 0.11, see the
counterexample.) -/
theorem c3_confidence_range_zero (r : Result)
    (hs : r.billing_period.pstart ≠ some []) (he : r.billing_period.pend ≠ some []) :
    0 ≤ calculate_confidence r ∧ calculate_confidence r ≤ 1 ∧
    (calculate_confidence r = 0 ↔
      (r.card_last4 = Option.none ∧
       ¬(r.billing_period.pstart.isSome = true ∧ r.billing_period.pend.isSome = true) ∧
       r.payment_due_date = Option.none ∧ r.new_balance = Option.none) ∧
      r.minimum_due = Option.none) := by
  rw [confidence_eq_confOf r hs he]
  refine ⟨(confOf_range _ _ _ _ _).1, (confOf_range _ _ _ _ _).2, ?_⟩
  rw [confOf_zero]
  constructor
  · rintro ⟨h1, h2, h3, h4, h5⟩
    refine ⟨⟨isSome_false_iff.mp h1, ?_, isSome_false_iff.mp h3, isSome_false_iff.mp h4⟩,
      isSome_false_iff.mp h5⟩
    rintro ⟨ha, hb⟩
    rw [ha, hb] at h2
    exact absurd h2 (by decide)
  · rintro ⟨⟨h1, h2, h3, h4⟩, h5⟩
    refine ⟨isSome_false_iff.mpr h1, ?_, isSome_false_iff.mpr h3, isSome_false_iff.mpr h4,
      isSome_false_iff.mpr h5⟩
    cases hx : r.billing_period.pstart.isSome with
    | false => rfl
    | true =>
      cases hy : r.billing_period.pend.isSome with
      | false => rfl
      | true => exact absurd ⟨hx, hy⟩ h2

/-- The record with only a minimum due, used to refute the original C3. -/
def c3r : Result :=
  { issuer := "X", card_last4 := Option.none,
    billing_period := ⟨Option.none, Option.none⟩, payment_due_date := Option.none,
    minimum_due := some (.fin 50), new_balance := Option.none, confidence := 0 }

/-- C3 counterexample: all four fields named by the original claim are
absent from `c3r`, yet its confidence is 0.11, not 0. -/
theorem c3_counterexample :
    c3r.card_last4 = Option.none ∧
    c3r.billing_period.pstart = Option.none ∧ c3r.billing_period.pend = Option.none ∧
    c3r.payment_due_date = Option.none ∧ c3r.new_balance = Option.none ∧
    calculate_confidence c3r = 11 / 100 ∧ ¬(calculate_confidence c3r = 0) := by
  refine ⟨rfl, rfl, rfl, rfl, rfl, ?_, ?_⟩ <;>
    norm_num [calculate_confidence, strTruthy, round2, c3r]

/-- Witness for C3 at a concrete record. -/
theorem c3_confidence_range_zero_witness :
    0 ≤ calculate_confidence c3r ∧ calculate_confidence c3r ≤ 1 ∧
    (calculate_confidence c3r = 0 ↔
      (c3r.card_last4 = Option.none ∧
       ¬(c3r.billing_period.pstart.isSome = true ∧ c3r.billing_period.pend.isSome = true) ∧
       c3r.payment_due_date = Option.none ∧ c3r.new_balance = Option.none) ∧
      c3r.minimum_due = Option.none) :=
  c3_confidence_range_zero c3r (by decide) (by decide)

/-! ## C4: the short-text short-circuit -/

/-- All extracted fields absent and zero confidence. -/
def allNoneZero (r : Result) : Prop :=
  r.card_last4 = Option.none ∧ r.billing_period.pstart = Option.none ∧
  r.billing_period.pend = Option.none ∧ r.payment_due_date = Option.none ∧
  r.minimum_due = Option.none ∧ r.new_balance = Option.none ∧ r.confidence = 0

/-- C4 (confirmed): on text that is empty or under 10 characters after
trimming, every one of the five parsers short-circuits to its all-none,
zero-confidence record with the issuer name set. -/
theorem c4_short_circuit (t : List Char) (h : t = [] ∨ (pyStrip t).length < 10) :
    (parse_onecardText t = .ok onecardDefault ∧ allNoneZero onecardDefault ∧
      onecardDefault.issuer = "OneCard") ∧
    (parse_buildingblocksText t = .ok buildingblocksDefault ∧ allNoneZero buildingblocksDefault ∧
      buildingblocksDefault.issuer = "BuildingBlocks") ∧
    (parse_hdfcText t = .ok hdfcDefault ∧ allNoneZero hdfcDefault ∧
      hdfcDefault.issuer = "HDFC") ∧
    (parse_amexText t = .ok amexDefault ∧ allNoneZero amexDefault ∧
      amexDefault.issuer = "AMEX") ∧
    (parse_firstcitizensText t = .ok firstcitizensDefault ∧ allNoneZero firstcitizensDefault ∧
      firstcitizensDefault.issuer = "FirstCitizens") := by
  refine ⟨⟨?_, ⟨rfl, rfl, rfl, rfl, rfl, rfl, rfl⟩, rfl⟩,
          ⟨?_, ⟨rfl, rfl, rfl, rfl, rfl, rfl, rfl⟩, rfl⟩,
          ⟨?_, ⟨rfl, rfl, rfl, rfl, rfl, rfl, rfl⟩, rfl⟩,
          ⟨?_, ⟨rfl, rfl, rfl, rfl, rfl, rfl, rfl⟩, rfl⟩,
          ⟨?_, ⟨rfl, rfl, rfl, rfl, rfl, rfl, rfl⟩, rfl⟩⟩
  · unfold parse_onecardText
    rw [if_pos h]
  · unfold parse_buildingblocksText
    rw [if_pos h]
  · unfold parse_hdfcText
    rw [if_pos h]
  · unfold parse_amexText
    rw [if_pos h]
  · unfold parse_firstcitizensText
    rw [if_pos h]

/-- Witness for C4 on the two-character text "hi". -/
theorem c4_short_circuit_witness :
    (parse_onecardText (sl "hi") = .ok onecardDefault ∧ allNoneZero onecardDefault ∧
      onecardDefault.issuer = "OneCard") ∧
    (parse_buildingblocksText (sl "hi") = .ok buildingblocksDefault ∧
      allNoneZero buildingblocksDefault ∧ buildingblocksDefault.issuer = "BuildingBlocks") ∧
    (parse_hdfcText (sl "hi") = .ok hdfcDefault ∧ allNoneZero hdfcDefault ∧
      hdfcDefault.issuer = "HDFC") ∧
    (parse_amexText (sl "hi") = .ok amexDefault ∧ allNoneZero amexDefault ∧
      amexDefault.issuer = "AMEX") ∧
    (parse_firstcitizensText (sl "hi") = .ok firstcitizensDefault ∧
      allNoneZero firstcitizensDefault ∧ firstcitizensDefault.issuer = "FirstCitizens") :=
  c4_short_circuit (sl "hi") (by decide)

/-! ## C5: parsers never raise -/

/-- Every `.ok` result of the OneCard body carries the issuer name. -/
theorem ocText_issuer (t : List Char) (r : Result) (h : parse_onecardText t = .ok r) :
    r.issuer = "OneCard" := by
  unfold parse_onecardText at h
  split at h <;> (rw [Except.ok.injEq] at h; subst h) <;> rfl

/-- Every `.ok` result of the BuildingBlocks body carries the issuer name. -/
theorem bbText_issuer (t : List Char) (r : Result) (h : parse_buildingblocksText t = .ok r) :
    r.issuer = "BuildingBlocks" := by
  unfold parse_buildingblocksText at h
  split at h <;> (rw [Except.ok.injEq] at h; subst h) <;> rfl

/-- Every `.ok` result of the HDFC body carries the issuer name. -/
theorem hdfcText_issuer (t : List Char) (r : Result) (h : parse_hdfcText t = .ok r) :
    r.issuer = "HDFC" := by
  unfold parse_hdfcText at h
  split at h
  · rw [Except.ok.injEq] at h; subst h; rfl
  · split at h
    · split at h
      · rw [Except.ok.injEq] at h; subst h; rfl
      · exact absurd h (by simp)
    · rw [Except.ok.injEq] at h; subst h; rfl

/-- Every `.ok` result of the AMEX body carries the issuer name. -/
theorem amexText_issuer (t : List Char) (r : Result) (h : parse_amexText t = .ok r) :
    r.issuer = "AMEX" := by
  unfold parse_amexText at h
  split at h
  · rw [Except.ok.injEq] at h; subst h; rfl
  · split at h
    · split at h
      · rw [Except.ok.injEq] at h; subst h; rfl
      · exact absurd h (by simp)
    · rw [Except.ok.injEq] at h; subst h; rfl

/-- Every `.ok` result of the FirstCitizens body carries the issuer name. -/
theorem fcText_issuer (t : List Char) (r : Result) (h : parse_firstcitizensText t = .ok r) :
    r.issuer = "FirstCitizens" := by
  unfold parse_firstcitizensText at h
  split at h
  · rw [Except.ok.injEq] at h; subst h; rfl
  · simp only [] at h
    split at h
    · rw [Except.ok.injEq] at h; subst h; rfl
    · split at h
      · split at h
        · rw [Except.ok.injEq] at h; subst h; rfl
        · exact absurd h (by simp)
      · rw [Except.ok.injEq] at h; subst h; rfl

/-- The issuer field of a wrapper's output, on both the ok and the
caught-exception path. -/
theorem wrapIssuer (pt : List Char → Except PyExc Result) (dflt : Result) (nm : String)
    (hd : dflt.issuer = nm) (hpt : ∀ t r, pt t = .ok r → r.issuer = nm)
    (acq : Except PyExc (List Char)) :
    (match acq.bind pt with | .ok r => r | .error _ => dflt).issuer = nm := by
  cases acq with
  | error e => exact hd
  | ok t =>
    show (match pt t with | .ok r => r | .error _ => dflt).issuer = nm
    cases hp : pt t with
    | ok r => exact hpt t r hp
    | error e => exact hd

/-- A wrapper returns its default record whenever the body (or the
acquisition) raised. -/
theorem wrapError (pt : List Char → Except PyExc Result) (dflt : Result)
    (acq : Except PyExc (List Char)) (e : PyExc) (hb : acq.bind pt = .error e) :
    (match acq.bind pt with | .ok r => r | .error _ => dflt) = dflt := by
  rw [hb]

/-- C5 (confirmed): no parser raises to its caller — the issuer field is
always set to the parser's name, and whenever acquisition or the body
raises, the outer boundary converts the exception into that parser's
all-none, zero-confidence record. -/
theorem c5_parsers_never_raise (acq : Except PyExc (List Char)) (e : PyExc) :
    ((parse_onecard acq).issuer = "OneCard" ∧
      (acq.bind parse_onecardText = .error e →
        parse_onecard acq = onecardDefault ∧ allNoneZero onecardDefault)) ∧
    ((parse_buildingblocks acq).issuer = "BuildingBlocks" ∧
      (acq.bind parse_buildingblocksText = .error e →
        parse_buildingblocks acq = buildingblocksDefault ∧ allNoneZero buildingblocksDefault)) ∧
    ((parse_hdfc acq).issuer = "HDFC" ∧
      (acq.bind parse_hdfcText = .error e →
        parse_hdfc acq = hdfcDefault ∧ allNoneZero hdfcDefault)) ∧
    ((parse_amex acq).issuer = "AMEX" ∧
      (acq.bind parse_amexText = .error e →
        parse_amex acq = amexDefault ∧ allNoneZero amexDefault)) ∧
    ((parse_firstcitizens acq).issuer = "FirstCitizens" ∧
      (acq.bind parse_firstcitizensText = .error e →
        parse_firstcitizens acq = firstcitizensDefault ∧ allNoneZero firstcitizensDefault)) := by
  refine ⟨⟨?_, ?_⟩, ⟨?_, ?_⟩, ⟨?_, ?_⟩, ⟨?_, ?_⟩, ⟨?_, ?_⟩⟩
  · exact wrapIssuer parse_onecardText onecardDefault "OneCard" rfl ocText_issuer acq
  · intro hb
    unfold parse_onecard
    exact ⟨wrapError parse_onecardText onecardDefault acq e hb, rfl, rfl, rfl, rfl, rfl, rfl, rfl⟩
  · exact wrapIssuer parse_buildingblocksText buildingblocksDefault "BuildingBlocks" rfl
      bbText_issuer acq
  · intro hb
    unfold parse_buildingblocks
    exact ⟨wrapError parse_buildingblocksText buildingblocksDefault acq e hb,
      rfl, rfl, rfl, rfl, rfl, rfl, rfl⟩
  · exact wrapIssuer parse_hdfcText hdfcDefault "HDFC" rfl hdfcText_issuer acq
  · intro hb
    unfold parse_hdfc
    exact ⟨wrapError parse_hdfcText hdfcDefault acq e hb, rfl, rfl, rfl, rfl, rfl, rfl, rfl⟩
  · exact wrapIssuer parse_amexText amexDefault "AMEX" rfl amexText_issuer acq
  · intro hb
    unfold parse_amex
    exact ⟨wrapError parse_amexText amexDefault acq e hb, rfl, rfl, rfl, rfl, rfl, rfl, rfl⟩
  · exact wrapIssuer parse_firstcitizensText firstcitizensDefault "FirstCitizens" rfl
      fcText_issuer acq
  · intro hb
    unfold parse_firstcitizens
    exact ⟨wrapError parse_firstcitizensText firstcitizensDefault acq e hb,
      rfl, rfl, rfl, rfl, rfl, rfl, rfl⟩

/-- Witness for C5 at a concrete failed acquisition. -/
theorem c5_parsers_never_raise_witness :
    ((parse_onecard (.error .err)).issuer = "OneCard" ∧
      ((Except.error PyExc.err).bind parse_onecardText = .error .err →
        parse_onecard (.error .err) = onecardDefault ∧ allNoneZero onecardDefault)) ∧
    ((parse_buildingblocks (.error .err)).issuer = "BuildingBlocks" ∧
      ((Except.error PyExc.err).bind parse_buildingblocksText = .error .err →
        parse_buildingblocks (.error .err) = buildingblocksDefault ∧
          allNoneZero buildingblocksDefault)) ∧
    ((parse_hdfc (.error .err)).issuer = "HDFC" ∧
      ((Except.error PyExc.err).bind parse_hdfcText = .error .err →
        parse_hdfc (.error .err) = hdfcDefault ∧ allNoneZero hdfcDefault)) ∧
    ((parse_amex (.error .err)).issuer = "AMEX" ∧
      ((Except.error PyExc.err).bind parse_amexText = .error .err →
        parse_amex (.error .err) = amexDefault ∧ allNoneZero amexDefault)) ∧
    ((parse_firstcitizens (.error .err)).issuer = "FirstCitizens" ∧
      ((Except.error PyExc.err).bind parse_firstcitizensText = .error .err →
        parse_firstcitizens (.error .err) = firstcitizensDefault ∧
          allNoneZero firstcitizensDefault)) :=
  c5_parsers_never_raise (.error .err) .err

/-! ## C6: dispatcher -/

/-- C6 (confirmed): `parse_pdf` maps each of the five supported issuer
strings to the corresponding parser's result, and any other issuer
string to the sentinel mapping holding exactly the one key "error" with
its fixed message. -/
theorem c6_dispatch (acq : String → Except PyExc (List Char)) (path issuer : String)
    (h : issuer ≠ "onecard" ∧ issuer ≠ "buildingblocks" ∧ issuer ≠ "hdfc" ∧
      issuer ≠ "amex" ∧ issuer ≠ "firstcitizens") :
    parse_pdf acq path issuer = .errMap [("error", "issuer not supported")] ∧
    parse_pdf acq path "onecard" = .res (parse_onecard (acq path)) ∧
    parse_pdf acq path "buildingblocks" = .res (parse_buildingblocks (acq path)) ∧
    parse_pdf acq path "hdfc" = .res (parse_hdfc (acq path)) ∧
    parse_pdf acq path "amex" = .res (parse_amex (acq path)) ∧
    parse_pdf acq path "firstcitizens" = .res (parse_firstcitizens (acq path)) := by
  obtain ⟨h1, h2, h3, h4, h5⟩ := h
  refine ⟨?_, rfl, rfl, rfl, rfl, rfl⟩
  unfold parse_pdf
  rw [if_neg h1, if_neg h2, if_neg h3, if_neg h4, if_neg h5]

/-- Witness for C6 at a concrete unsupported issuer. -/
theorem c6_dispatch_witness :
    parse_pdf (fun _ => .error .err) "s.pdf" "sbi" = .errMap [("error", "issuer not supported")] ∧
    parse_pdf (fun _ => .error .err) "s.pdf" "onecard" =
      .res (parse_onecard ((fun _ => (.error .err : Except PyExc (List Char))) "s.pdf")) ∧
    parse_pdf (fun _ => .error .err) "s.pdf" "buildingblocks" =
      .res (parse_buildingblocks ((fun _ => (.error .err : Except PyExc (List Char))) "s.pdf")) ∧
    parse_pdf (fun _ => .error .err) "s.pdf" "hdfc" =
      .res (parse_hdfc ((fun _ => (.error .err : Except PyExc (List Char))) "s.pdf")) ∧
    parse_pdf (fun _ => .error .err) "s.pdf" "amex" =
      .res (parse_amex ((fun _ => (.error .err : Except PyExc (List Char))) "s.pdf")) ∧
    parse_pdf (fun _ => .error .err) "s.pdf" "firstcitizens" =
      .res (parse_firstcitizens ((fun _ => (.error .err : Except PyExc (List Char))) "s.pdf")) :=
  c6_dispatch (fun _ => .error .err) "s.pdf" "sbi"
    ⟨by decide, by decide, by decide, by decide, by decide⟩

/-! ## C7: currency normalization -/

/-- C7 (confirmed): `normalize_currency` never raises — on a string
whose cleaned form (currency glyphs, commas and whitespace removed) is a
decimal `I.F` or an integer `J` of ASCII digits it returns that numeric
value; on `none`, on a string that cleans to nothing, and on a
non-numeric string such as "abc" it returns none. -/
theorem c7_normalize_currency (s1 s2 w I F J : List Char)
    (hI : ∀ c ∈ I, isDigitC c = true) (hF : ∀ c ∈ F, isDigitC c = true)
    (hne : ¬(I = [] ∧ F = []))
    (h1 : s1.filter (fun c => !isCurrencyJunk c) = I ++ '.' :: F)
    (hJ : ∀ c ∈ J, isDigitC c = true) (hJne : J ≠ [])
    (h2 : s2.filter (fun c => !isCurrencyJunk c) = J)
    (hw : w.filter (fun c => !isCurrencyJunk c) = []) :
    normalize_currency (.str s1) =
      some (.fin ((digitsToNat I : ℚ) + (digitsToNat F : ℚ) / (10 : ℚ) ^ F.length)) ∧
    normalize_currency (.str s2) = some (.fin (digitsToNat J : ℚ)) ∧
    normalize_currency PyVal.none = Option.none ∧
    normalize_currency (.str w) = Option.none ∧
    normalize_currency (.str (sl "abc")) = Option.none := by
  refine ⟨?_, ?_, rfl, ?_, by decide⟩
  · unfold normalize_currency
    simp only []
    rw [h1, if_neg (by simp)]
    have := pyFloat_decimal hI hF hne
    rw [this]
    rfl
  · unfold normalize_currency
    simp only []
    rw [h2, if_neg hJne]
    have := pyFloat_int hJ hJne
    rw [this]
    unfold mantVal
    norm_num
  · unfold normalize_currency
    simp only []
    rw [hw, if_pos rfl]

/-- Witness for C7 at concrete currency strings. -/
theorem c7_normalize_currency_witness :
    normalize_currency (.str (sl "₹1,234.56")) =
      some (.fin ((digitsToNat (sl "1234") : ℚ) +
        (digitsToNat (sl "56") : ℚ) / (10 : ℚ) ^ (sl "56").length)) ∧
    normalize_currency (.str (sl "1,234")) = some (.fin (digitsToNat (sl "1234") : ℚ)) ∧
    normalize_currency PyVal.none = Option.none ∧
    normalize_currency (.str (sl " ₹ ")) = Option.none ∧
    normalize_currency (.str (sl "abc")) = Option.none :=
  c7_normalize_currency (sl "₹1,234.56") (sl "1,234") (sl " ₹ ")
    (sl "1234") (sl "56") (sl "1234")
    (by decide) (by decide) (by decide) (by decide) (by decide) (by decide) (by decide)
    (by decide)

/-! ## C8: date normalization -/

theorem digitsToNat_aux_lt :
    ∀ (s : List Char), (∀ c ∈ s, isDigitC c = true) →
      ∀ acc : Nat, s.foldl (fun a c => a * 10 + digitVal c) acc < (acc + 1) * 10 ^ s.length := by
  intro s
  induction s with
  | nil =>
    intro _ acc
    simp only [List.foldl, List.length_nil, pow_zero, mul_one]
    omega
  | cons c t ih =>
    intro hd acc
    have hc := hd c (List.mem_cons_self c t)
    have hdv : digitVal c ≤ 9 := by
      obtain ⟨h1, h2⟩ := isDigitC_toNat hc
      have h0 : '0'.toNat = 48 := rfl
      unfold digitVal
      omega
    have ht : ∀ x ∈ t, isDigitC x = true := fun x hx => hd x (List.mem_cons_of_mem c hx)
    have hih := ih ht (acc * 10 + digitVal c)
    simp only [List.foldl, List.length_cons]
    calc t.foldl (fun a c => a * 10 + digitVal c) (acc * 10 + digitVal c)
        < (acc * 10 + digitVal c + 1) * 10 ^ t.length := hih
      _ ≤ ((acc + 1) * 10) * 10 ^ t.length := by
          have hstep : acc * 10 + digitVal c + 1 ≤ (acc + 1) * 10 := by omega
          exact Nat.mul_le_mul_right _ hstep
      _ = (acc + 1) * 10 ^ (t.length + 1) := by ring

/-- A string of `n` digits has value under `10 ^ n`. -/
theorem digitsToNat_lt {s : List Char} (hd : ∀ c ∈ s, isDigitC c = true) :
    digitsToNat s < 10 ^ s.length := by
  have h := digitsToNat_aux_lt s hd 0
  unfold digitsToNat
  simpa using h

/-- One tokenizer step on a digit while a digit run is open. -/
theorem dateToksGo_digit_step (acc : List DTok) (ds : List Char) (c : Char) (t : List Char)
    (hc : isDigitC c = true) :
    dateToksGo acc (some (.num ds)) (c :: t) = dateToksGo acc (some (.num (ds ++ [c]))) t := by
  rw [dateToksGo, if_pos hc]

/-- One tokenizer step on the separator `/`. -/
theorem dateToksGo_sep_step (acc : List DTok) (cur : Option DTok) (t : List Char) :
    dateToksGo acc cur ('/' :: t) = dateToksGo (flushTok cur acc) Option.none t := by
  cases cur with
  | none => rfl
  | some tk => cases tk <;> rfl

/-- The tokenizer swallows a whole digit run into the open token. -/
theorem dateToksGo_digits :
    ∀ (A : List Char), (∀ c ∈ A, isDigitC c = true) →
      ∀ (acc : List DTok) (ds r : List Char),
        dateToksGo acc (some (.num ds)) (A ++ r) = dateToksGo acc (some (.num (ds ++ A))) r := by
  intro A
  induction A with
  | nil => intro _ acc ds r; simp
  | cons c t ih =>
    intro hA acc ds r
    have hc := hA c (List.mem_cons_self c t)
    show dateToksGo acc (some (.num ds)) (c :: (t ++ r)) = _
    rw [dateToksGo_digit_step acc ds c (t ++ r) hc]
    rw [ih (fun x hx => hA x (List.mem_cons_of_mem c hx)) acc (ds ++ [c]) r]
    simp

/-- The tokenizer opens and swallows a digit run from a fresh state. -/
theorem dateToksGo_num_start (A : List Char) (hA : ∀ c ∈ A, isDigitC c = true) (hne : A ≠ [])
    (acc : List DTok) (r : List Char) :
    dateToksGo acc Option.none (A ++ r) = dateToksGo acc (some (.num A)) r := by
  cases A with
  | nil => exact absurd rfl hne
  | cons c t =>
    have hc := hA c (List.mem_cons_self c t)
    show dateToksGo acc Option.none (c :: (t ++ r)) = _
    rw [dateToksGo, if_pos hc]
    show dateToksGo acc (some (.num [c])) (t ++ r) = _
    rw [dateToksGo_digits t (fun x hx => hA x (List.mem_cons_of_mem c hx)) acc [c] r]
    rfl

/-- A digit run at the end of the input flushes into the token list. -/
theorem dateToksGo_num_end (C : List Char) (hC : ∀ c ∈ C, isDigitC c = true) (hne : C ≠ [])
    (acc : List DTok) :
    dateToksGo acc Option.none C = some (flushTok (some (.num C)) acc).reverse := by
  have h := dateToksGo_num_start C hC hne acc []
  rw [List.append_nil] at h
  rw [h]
  rfl

/-- Tokenization of a slash-separated all-numeric date. -/
theorem dateToks_dmy (A B C : List Char)
    (hA : ∀ c ∈ A, isDigitC c = true) (hAne : A ≠ [])
    (hB : ∀ c ∈ B, isDigitC c = true) (hBne : B ≠ [])
    (hC : ∀ c ∈ C, isDigitC c = true) (hCne : C ≠ []) :
    dateToks (A ++ '/' :: (B ++ '/' :: C)) = some [DTok.num A, DTok.num B, DTok.num C] := by
  unfold dateToks
  rw [dateToksGo_num_start A hA hAne]
  rw [dateToksGo_sep_step]
  rw [dateToksGo_num_start B hB hBne]
  rw [dateToksGo_sep_step]
  rw [dateToksGo_num_end C hC hCne]
  rfl

/-- Building a `validDate` check from its six component bounds. -/
theorem validDate_of (y m d : Nat) (h1 : 1 ≤ m) (h2 : m ≤ 12) (h3 : 1 ≤ d)
    (h4 : d ≤ daysInMonth m y) (h5 : 1 ≤ y) (h6 : y ≤ 9999) :
    validDate y m d = true := by
  unfold validDate
  simp only [Bool.and_eq_true, decide_eq_true_eq]
  exact ⟨⟨⟨⟨⟨h1, h2⟩, h3⟩, h4⟩, h5⟩, h6⟩

/-- The dateutil model on a day/month/4-digit-year numeric token list
whose middle token is a possible month: day-first order. -/
theorem duParse_dmy (A B C : List Char)
    (hAl : A.length = 1 ∨ A.length = 2) (hBl : B.length = 1 ∨ B.length = 2)
    (hCl : C.length = 4)
    (hm12 : digitsToNat B ≤ 12)
    (hv : validDate (digitsToNat C) (digitsToNat B) (digitsToNat A) = true) :
    duParse [DTok.num A, DTok.num B, DTok.num C] =
      some (digitsToNat C, digitsToNat B, digitsToNat A) := by
  simp only [duParse]
  rw [if_neg (show ¬A.length = 4 by rcases hAl with h | h <;> omega)]
  rw [if_pos (show (decide (C.length = 4) && decide (A.length ≤ 2) && decide (B.length ≤ 2)) = true by
    simp only [Bool.and_eq_true, decide_eq_true_eq]
    refine ⟨⟨hCl, ?_⟩, ?_⟩
    · rcases hAl with h | h <;> omega
    · rcases hBl with h | h <;> omega)]
  rw [if_pos hm12, if_pos hv]

/-- Stripping is the identity on digits-and-slashes strings. -/
theorem pyStrip_digit_slash {s : List Char} (h : ∀ c ∈ s, isDigitC c = true ∨ c = '/') :
    pyStrip s = s :=
  pyStrip_no_ws (fun c hc => by
    rcases h c hc with hd | he
    · exact digit_not_space hd
    · subst he; decide)

/-- Evaluation of `normalize_date` through given tokenization and parse
outcomes. -/
theorem normalize_date_eval {s : List Char} {toks : List DTok} {y m d : Nat}
    (hstrip : pyStrip s = s) (hne : ¬s = [])
    (htoks : dateToks s = some toks) (hparse : duParse toks = some (y, m, d)) :
    normalize_date (some s) = some (renderISO y m d) := by
  have step : normalize_date (some s) =
      (match duParse toks with
        | some (y, m, d) => some (renderISO y m d)
        | Option.none => Option.none) := by
    unfold normalize_date
    simp only []
    rw [hstrip, if_neg hne, htoks]
  rw [step, hparse]

/-- C8 (confirmed): on a slash-separated all-numeric day/month/year date
with a 4-digit year, `normalize_date` resolves the ambiguous order
day-before-month (given a month-slot value at most 12) and renders it as
YYYY-MM-DD; "05/08/2025" yields "2025-08-05" (5 August), canonical input
"2025-01-15" is a fixed point, and none, empty, whitespace-only and
unparseable input give none. -/
theorem c8_normalize_date (A B C : List Char)
    (hA : ∀ c ∈ A, isDigitC c = true) (hB : ∀ c ∈ B, isDigitC c = true)
    (hC : ∀ c ∈ C, isDigitC c = true)
    (hAl : A.length = 1 ∨ A.length = 2) (hBl : B.length = 1 ∨ B.length = 2)
    (hCl : C.length = 4)
    (hm : 1 ≤ digitsToNat B ∧ digitsToNat B ≤ 12)
    (hdy : 1 ≤ digitsToNat A ∧ digitsToNat A ≤ daysInMonth (digitsToNat B) (digitsToNat C))
    (hy : 1 ≤ digitsToNat C) :
    normalize_date (some (A ++ '/' :: (B ++ '/' :: C))) =
      some (renderISO (digitsToNat C) (digitsToNat B) (digitsToNat A)) ∧
    normalize_date (some (sl "05/08/2025")) = some (sl "2025-08-05") ∧
    normalize_date (some (sl "2025-01-15")) = some (sl "2025-01-15") ∧
    normalize_date Option.none = Option.none ∧
    normalize_date (some []) = Option.none ∧
    normalize_date (some (sl "   ")) = Option.none ∧
    normalize_date (some (sl "hello")) = Option.none := by
  refine ⟨?_, by decide, by decide, rfl, by decide, by decide, by decide⟩
  have hAne : A ≠ [] := by
    intro he
    rcases hAl with h | h <;> (rw [he] at h; simp at h)
  have hBne : B ≠ [] := by
    intro he
    rcases hBl with h | h <;> (rw [he] at h; simp at h)
  have hCne : C ≠ [] := by
    intro he
    rw [he] at hCl
    simp at hCl
  have hchars : ∀ c ∈ A ++ '/' :: (B ++ '/' :: C), isDigitC c = true ∨ c = '/' := by
    intro c hc
    rcases List.mem_append.mp hc with h | h
    · exact Or.inl (hA c h)
    · rcases List.mem_cons.mp h with h | h
      · exact Or.inr h
      · rcases List.mem_append.mp h with h | h
        · exact Or.inl (hB c h)
        · rcases List.mem_cons.mp h with h | h
          · exact Or.inr h
          · exact Or.inl (hC c h)
  have hne : ¬(A ++ '/' :: (B ++ '/' :: C)) = [] := by
    intro he
    rw [List.append_eq_nil] at he
    exact hAne he.1
  have hy9999 : digitsToNat C ≤ 9999 := by
    have hlt := digitsToNat_lt hC
    rw [hCl] at hlt
    norm_num at hlt
    omega
  exact normalize_date_eval (pyStrip_digit_slash hchars) hne
    (dateToks_dmy A B C hA hAne hB hBne hC hCne)
    (duParse_dmy A B C hAl hBl hCl hm.2
      (validDate_of _ _ _ hm.1 hm.2 hdy.1 hdy.2 hy hy9999))

/-- Witness for C8 at "15/01/2025" (and the fixed concrete cases). -/
theorem c8_normalize_date_witness :
    normalize_date (some (sl "15" ++ '/' :: (sl "01" ++ '/' :: sl "2025"))) =
      some (renderISO (digitsToNat (sl "2025")) (digitsToNat (sl "01"))
        (digitsToNat (sl "15"))) ∧
    normalize_date (some (sl "05/08/2025")) = some (sl "2025-08-05") ∧
    normalize_date (some (sl "2025-01-15")) = some (sl "2025-01-15") ∧
    normalize_date Option.none = Option.none ∧
    normalize_date (some []) = Option.none ∧
    normalize_date (some (sl "   ")) = Option.none ∧
    normalize_date (some (sl "hello")) = Option.none :=
  c8_normalize_date (sl "15") (sl "01") (sl "2025")
    (by decide) (by decide) (by decide) (by decide) (by decide) (by decide)
    (by decide) (by decide) (by decide)

/-! ## C9: money fields are non-negative -/

/-- C9 (confirmed): for every document, a present `minimum_due` or
`new_balance` of any of the five parsers is a finite, non-negative
value — the currency-capturing character classes admit no minus sign,
so the captured text always cleans to an unsigned decimal.  The last
five conjuncts show the fields are in fact reachable (present on a
concrete statement text for every parser). -/
theorem c9_money_nonneg (acq : Except PyExc (List Char)) :
    (∀ v, (parse_onecard acq).minimum_due = some v → ∃ q, v = .fin q ∧ 0 ≤ q) ∧
    (∀ v, (parse_onecard acq).new_balance = some v → ∃ q, v = .fin q ∧ 0 ≤ q) ∧
    (∀ v, (parse_buildingblocks acq).minimum_due = some v → ∃ q, v = .fin q ∧ 0 ≤ q) ∧
    (∀ v, (parse_buildingblocks acq).new_balance = some v → ∃ q, v = .fin q ∧ 0 ≤ q) ∧
    (∀ v, (parse_hdfc acq).minimum_due = some v → ∃ q, v = .fin q ∧ 0 ≤ q) ∧
    (∀ v, (parse_hdfc acq).new_balance = some v → ∃ q, v = .fin q ∧ 0 ≤ q) ∧
    (∀ v, (parse_amex acq).minimum_due = some v → ∃ q, v = .fin q ∧ 0 ≤ q) ∧
    (∀ v, (parse_amex acq).new_balance = some v → ∃ q, v = .fin q ∧ 0 ≤ q) ∧
    (∀ v, (parse_firstcitizens acq).minimum_due = some v → ∃ q, v = .fin q ∧ 0 ≤ q) ∧
    (∀ v, (parse_firstcitizens acq).new_balance = some v → ∃ q, v = .fin q ∧ 0 ≤ q) ∧
    ((parse_onecard (.ok (sl "Minimum Amount Due: 100 New Balance: 500"))).minimum_due.isSome
        = true ∧
      (parse_onecard (.ok (sl "Minimum Amount Due: 100 New Balance: 500"))).new_balance.isSome
        = true) ∧
    ((parse_buildingblocks (.ok (sl "Minimum Payment: 100 New Balance: 500"))).minimum_due.isSome
        = true ∧
      (parse_buildingblocks (.ok (sl "Minimum Payment: 100 New Balance: 500"))).new_balance.isSome
        = true) ∧
    ((parse_hdfc (.ok (sl "Minimum Amount Due: 100 New Balance: 500"))).minimum_due.isSome
        = true ∧
      (parse_hdfc (.ok (sl "Minimum Amount Due: 100 New Balance: 500"))).new_balance.isSome
        = true) ∧
    ((parse_amex (.ok (sl "Minimum Due: 100 New Balance: 500"))).minimum_due.isSome = true ∧
      (parse_amex (.ok (sl "Minimum Due: 100 New Balance: 500"))).new_balance.isSome = true) ∧
    ((parse_firstcitizens (.ok (sl "Minimum Payment: 100 New Balance: 500"))).minimum_due.isSome
        = true ∧
      (parse_firstcitizens (.ok (sl "Minimum Payment: 100 New Balance: 500"))).new_balance.isSome
        = true) := by
  refine ⟨?_, ?_, ?_, ?_, ?_, ?_, ?_, ?_, ?_, ?_,
    ⟨by decide, by decide⟩, ⟨by decide, by decide⟩, ⟨by decide, by decide⟩,
    ⟨by decide, by decide⟩, ⟨by decide, by decide⟩⟩
  · intro v h
    unfold parse_onecard at h
    obtain ⟨t, r, hok, hf⟩ := wrapLift Result.minimum_due parse_onecardText onecardDefault rfl acq v h
    exact oc_min_good (show okMin (parse_onecardText t) = some v by rw [hok]; exact hf)
  · intro v h
    unfold parse_onecard at h
    obtain ⟨t, r, hok, hf⟩ := wrapLift Result.new_balance parse_onecardText onecardDefault rfl acq v h
    exact oc_bal_good (show okBal (parse_onecardText t) = some v by rw [hok]; exact hf)
  · intro v h
    unfold parse_buildingblocks at h
    obtain ⟨t, r, hok, hf⟩ :=
      wrapLift Result.minimum_due parse_buildingblocksText buildingblocksDefault rfl acq v h
    exact bb_min_good (show okMin (parse_buildingblocksText t) = some v by rw [hok]; exact hf)
  · intro v h
    unfold parse_buildingblocks at h
    obtain ⟨t, r, hok, hf⟩ :=
      wrapLift Result.new_balance parse_buildingblocksText buildingblocksDefault rfl acq v h
    exact bb_bal_good (show okBal (parse_buildingblocksText t) = some v by rw [hok]; exact hf)
  · intro v h
    unfold parse_hdfc at h
    obtain ⟨t, r, hok, hf⟩ := wrapLift Result.minimum_due parse_hdfcText hdfcDefault rfl acq v h
    exact hdfc_min_good (show okMin (parse_hdfcText t) = some v by rw [hok]; exact hf)
  · intro v h
    unfold parse_hdfc at h
    obtain ⟨t, r, hok, hf⟩ := wrapLift Result.new_balance parse_hdfcText hdfcDefault rfl acq v h
    exact hdfc_bal_good (show okBal (parse_hdfcText t) = some v by rw [hok]; exact hf)
  · intro v h
    unfold parse_amex at h
    obtain ⟨t, r, hok, hf⟩ := wrapLift Result.minimum_due parse_amexText amexDefault rfl acq v h
    exact amex_min_good (show okMin (parse_amexText t) = some v by rw [hok]; exact hf)
  · intro v h
    unfold parse_amex at h
    obtain ⟨t, r, hok, hf⟩ := wrapLift Result.new_balance parse_amexText amexDefault rfl acq v h
    exact amex_bal_good (show okBal (parse_amexText t) = some v by rw [hok]; exact hf)
  · intro v h
    unfold parse_firstcitizens at h
    obtain ⟨t, r, hok, hf⟩ :=
      wrapLift Result.minimum_due parse_firstcitizensText firstcitizensDefault rfl acq v h
    exact fc_min_good (show okMin (parse_firstcitizensText t) = some v by rw [hok]; exact hf)
  · intro v h
    unfold parse_firstcitizens at h
    obtain ⟨t, r, hok, hf⟩ :=
      wrapLift Result.new_balance parse_firstcitizensText firstcitizensDefault rfl acq v h
    exact fc_bal_good (show okBal (parse_firstcitizensText t) = some v by rw [hok]; exact hf)

/-! ## C10: issuer detection -/

/-- C10 (confirmed): `detect_issuer` always returns one of the six fixed
strings; it tests case-insensitive containment of the five issuer names
in fixed priority order and returns the first match, "unknown" when none
matches; a path containing both "onecard" and "hdfc" yields "onecard". -/
theorem c10_detect_issuer (p : List Char) :
    (detect_issuer p = "onecard" ∨ detect_issuer p = "buildingblocks" ∨
     detect_issuer p = "hdfc" ∨ detect_issuer p = "amex" ∨
     detect_issuer p = "firstcitizens" ∨ detect_issuer p = "unknown") ∧
    (strContains (lowerL p) (sl "onecard") = true → detect_issuer p = "onecard") ∧
    (strContains (lowerL p) (sl "onecard") = false →
      strContains (lowerL p) (sl "buildingblocks") = true →
      detect_issuer p = "buildingblocks") ∧
    (strContains (lowerL p) (sl "onecard") = false →
      strContains (lowerL p) (sl "buildingblocks") = false →
      strContains (lowerL p) (sl "hdfc") = true →
      detect_issuer p = "hdfc") ∧
    (strContains (lowerL p) (sl "onecard") = false →
      strContains (lowerL p) (sl "buildingblocks") = false →
      strContains (lowerL p) (sl "hdfc") = false →
      strContains (lowerL p) (sl "amex") = true →
      detect_issuer p = "amex") ∧
    (strContains (lowerL p) (sl "onecard") = false →
      strContains (lowerL p) (sl "buildingblocks") = false →
      strContains (lowerL p) (sl "hdfc") = false →
      strContains (lowerL p) (sl "amex") = false →
      strContains (lowerL p) (sl "firstcitizens") = true →
      detect_issuer p = "firstcitizens") ∧
    (strContains (lowerL p) (sl "onecard") = false →
      strContains (lowerL p) (sl "buildingblocks") = false →
      strContains (lowerL p) (sl "hdfc") = false →
      strContains (lowerL p) (sl "amex") = false →
      strContains (lowerL p) (sl "firstcitizens") = false →
      detect_issuer p = "unknown") ∧
    detect_issuer (sl "statements/onecard_hdfc.pdf") = "onecard" := by
  refine ⟨?_, ?_, ?_, ?_, ?_, ?_, ?_, by decide⟩
  · unfold detect_issuer
    split_ifs <;> simp
  · intro h1
    simp [detect_issuer, h1]
  · intro h1 h2
    simp [detect_issuer, h1, h2]
  · intro h1 h2 h3
    simp [detect_issuer, h1, h2, h3]
  · intro h1 h2 h3 h4
    simp [detect_issuer, h1, h2, h3, h4]
  · intro h1 h2 h3 h4 h5
    simp [detect_issuer, h1, h2, h3, h4, h5]
  · intro h1 h2 h3 h4 h5
    simp [detect_issuer, h1, h2, h3, h4, h5]
